import Mathlib

/-!
Prover.c: framing, payload codecs, the ZXK derivation, error correction and
the authentication loop.

A shallow embedding of `Protocol on Embedded/Embedded/Prover.c`.

Conventions of the embedding
* a byte is a natural number below 256; a byte buffer is a `List Nat`;
* a C string (`const char *`) is the list of its characters before the
  terminating NUL, so `strlen` is `List.length`;
* fixed-width C integers are naturals or integers reduced explicitly
  (`% 256` for `uint8_t`, `% 65536` for `uint16_t`, `% 2 ^ 64` for
  `unsigned long`, which is 64 bits wide on the LP64 Linux targets the
  socket code is written for);
* heap allocation is assumed to succeed (`malloc`, `strdup` and `strndup`
  return a non-null pointer), so the `if (!buffer) return NULL` branches are
  not taken;
* the receive side of the socket is the list of chunks in which the peer's
  bytes arrive, the send side is the list of bytes put on the wire;
* OpenSSL's `SHA256` is a parameter of `hash_value`, `ZXK` and the session
  functions, so the general theorems hold for every hash function; the
  concrete sessions use `sha256`, the function of FIPS 180-4;
* the values `rand()` returns and the numbers of bytes the `send` calls take
  are inputs; the socket is taken as connected;
* loops that the program may run without end (`recv_message` failing for
  ever in the round loop) take a number of iterations as fuel.
-/

namespace Prover

/-! ## Constants -/

def PORT_USED : Nat := 45555
def AUTH_REQUEST : Nat := 0x06
def AUTH_MSG : Nat := 0x07
def AUTH_ACK : Nat := 0x08
def AUTH_DONE : Nat := 0x09
def PRIME_USED : Nat := 2147483647

/-- Width of `unsigned long` on the LP64 targets of the program. -/
def ULONG_BITS : Nat := 64

/-- Largest `unsigned long`. -/
def ULONG_MAX : Nat := 2 ^ ULONG_BITS - 1

/-! ## The socket -/

/-- Receive side of a connected stream socket: the chunks in which the
peer's bytes become available, in order.  Once the list is exhausted the
peer has closed the connection and `recv` returns 0.  (A failing `recv`
returns -1; `recvall` treats both alike through `bytes <= 0`.) -/
abbrev Sock := List (List Nat)

/-- One call `recv(sockfd, buf, len, 0)`: at most `len` bytes of the
chunk at the head of the stream are delivered.  The result is the return
value, the bytes stored and the stream that is left. -/
def recv (s : Sock) (len : Nat) : Int × List Nat × Sock :=
  match s with
  | [] => (0, [], [])
  | c :: rest =>
    let d := c.take len
    ((d.length : Int), d, if (c.drop len).isEmpty then rest else c.drop len :: rest)

/-- The `while (total < n)` loop of `recvall`.  Every iteration that does
not return stores at least one byte, so `n - total` iterations are enough;
`fuel` counts them. -/
def recvallLoop : Nat → Sock → Nat → Nat → List Nat → Int × List Nat × Sock
  | 0, s, _, total, buf => ((total : Int), buf, s)
  | fuel + 1, s, n, total, buf =>
    if total < n then
      match recv s (n - total) with
      | (bytes, d, s1) =>
        if bytes ≤ 0 then (bytes, buf ++ d, s1)
        else recvallLoop fuel s1 n (total + bytes.toNat) (buf ++ d)
    else ((total : Int), buf, s)

/-- `recvall(sockfd, buf, n)`: receive exactly `n` bytes.  Returns the
return value (`n`, or the non-positive value of the failing `recv`), the
bytes stored in `buf` and the stream that is left. -/
def recvall (s : Sock) (n : Nat) : Int × List Nat × Sock :=
  recvallLoop n s n 0 []

/-- One call `send(sockfd, buf, len, 0)` on the wire `wire`: the kernel
takes `acc` of the bytes offered (a negative `acc` is a failing call).
Returns the return value and the wire afterwards. -/
def send (wire : List Nat) (buf : List Nat) (acc : Int) : Int × List Nat :=
  if acc < 0 then (-1, wire)
  else (((buf.take acc.toNat).length : Int), wire ++ buf.take acc.toNat)

/-- High and low byte of `htons(v)` as laid out in memory. -/
def htons (v : Nat) : List Nat := [(v % 65536) / 256, v % 256]

/-- `ntohs` of the 16-bit value whose two bytes in memory are `hi`, `lo`. -/
def ntohs (hi lo : Nat) : Nat := (hi % 256) * 256 + lo % 256

/-- `send_message(sockfd, msgType, payload, payload_len)`; `acc1` and
`acc2` are what the two `send` calls accept.  Returns the return value and
the wire afterwards. -/
def send_message (wire : List Nat) (acc1 acc2 : Int) (msgType : Nat)
    (payload : List Nat) (payload_len : Nat) : Int × List Nat :=
  let header := [1, msgType % 256] ++ htons payload_len
  match send wire header acc1 with
  | (r1, wire1) =>
    if r1 ≠ 4 then (-1, wire1)
    else
      match send wire1 (payload.take payload_len) acc2 with
      | (r2, wire2) =>
        if r2 ≠ (payload_len : Int) then (-1, wire2) else (0, wire2)

/-- `recv_message(sockfd, &msgType, &payload, &payload_len)`.  The first
component is `none` for the return value -1 and otherwise the message type,
the payload and the payload length handed to the caller; the second is the
stream that is left. -/
def recv_message (s : Sock) : Option (Nat × List Nat × Nat) × Sock :=
  match recvall s 4 with
  | (r, header, s1) =>
    if r ≠ 4 then (none, s1)
    else
      let msgType := header.getD 1 0
      let payload_len := ntohs (header.getD 2 0) (header.getD 3 0)
      match recvall s1 payload_len with
      | (r2, payload, s2) =>
        if r2 ≠ (payload_len : Int) then (none, s2)
        else (some (msgType, payload, payload_len), s2)

/-! ## C library functions used by the program -/

/-- `strndup(p, n)` where `buf` holds the bytes from `p` on: at most `n`
bytes are copied and copying stops at the first NUL. -/
def strndup (buf : List Nat) (n : Nat) : List Nat :=
  (buf.take n).takeWhile (fun c => c != 0)

/-- `isspace` in the C locale. -/
def isspace (c : Nat) : Bool := c == 32 || (9 ≤ c && c ≤ 13)

/-- Value of a character as a digit in `strtoul`: `0`-`9`, then letters of
either case from 10 on. -/
def digitVal (c : Nat) : Option Nat :=
  if 48 ≤ c ∧ c ≤ 57 then some (c - 48)
  else if 97 ≤ c ∧ c ≤ 122 then some (c - 87)
  else if 65 ≤ c ∧ c ≤ 90 then some (c - 55)
  else none

/-- Exact value of the longest run of base-`base` digits at the head of the
string, continuing from `acc`. -/
def strtoulDigits (base : Nat) : List Nat → Nat → Nat
  | [], acc => acc
  | c :: cs, acc =>
    match digitVal c with
    | some d => if d < base then strtoulDigits base cs (acc * base + d) else acc
    | none => acc

/-- `strtoul(s, NULL, base)` of the C standard for an explicit base: leading
white space, an optional sign, for base 16 an optional `0x`, then digits; a
value that does not fit `unsigned long` gives `ULONG_MAX`, a minus sign
negates the value in `unsigned long`. -/
def strtoul (s : List Nat) (base : Nat) : Nat :=
  let s1 := s.dropWhile isspace
  let neg := s1.head? == some 45
  let s2 := if s1.head? == some 45 || s1.head? == some 43 then s1.tail else s1
  let s3 :=
    if base = 16 then
      match s2 with
      | 48 :: 120 :: t => t
      | 48 :: 88 :: t => t
      | _ => s2
    else s2
  let v := strtoulDigits base s3 0
  if v > ULONG_MAX then ULONG_MAX
  else if neg then (2 ^ ULONG_BITS - v) % 2 ^ ULONG_BITS
  else v

/-- Decimal digits of `n`, most significant first, for at most `fuel`
digits. -/
def decDigits : Nat → Nat → List Nat
  | 0, _ => []
  | fuel + 1, n => if n < 10 then [48 + n] else decDigits fuel (n / 10) ++ [48 + n % 10]

/-- What `"%lu"` prints for an `unsigned long` (at most 20 digits). -/
def fmt_lu (n : Nat) : List Nat := decDigits 20 (n % 2 ^ ULONG_BITS)

/-- A lower-case hexadecimal digit. -/
def hexChar (d : Nat) : Nat := if d < 10 then 48 + d else 87 + d

/-- What `"%02x"` prints for an `unsigned char`. -/
def fmt_02x (b : Nat) : List Nat := [hexChar (b % 256 / 16), hexChar (b % 16)]

/-! ## Hashing and the ZXK derivation -/

/-- `hash_value(count, ...)` with the `count` strings given as a list.
`SHA256` is OpenSSL's function, from the message to the 32 digest bytes.
The strings are concatenated in order and the digest is printed as 64
lower-case hexadecimal characters. -/
def hash_value (SHA256 : List Nat → List Nat) (args : List (List Nat)) : List Nat :=
  let concat := args.foldl (fun acc s => acc ++ s) []
  let hash := SHA256 concat
  ((List.range 32).map (fun i => fmt_02x (hash.getD i 0))).flatten

/-- `ZXK(M, R, &x)`; `rnd` is the value `rand()` returns.  The result is the
string `Z_str` and the value stored in `*x`. -/
def ZXK (SHA256 : List Nat → List Nat) (rnd : Nat) (M R : List Nat) : List Nat × Nat :=
  let hash_R := hash_value SHA256 [R]
  let R_hashed := strtoul hash_R 16 % PRIME_USED
  let x := (rnd % 9000) + 1000
  let M_val := strtoul M 16
  let multiplier := (M_val * R_hashed) % 2 ^ ULONG_BITS % PRIME_USED
  let Z_val := (multiplier * x) % 2 ^ ULONG_BITS % PRIME_USED
  ((fmt_lu Z_val).take 15, x)

/-! ## Payload codecs -/

/-- `pack_auth_request(HID_j, CHlen, x_p, &out_len)`: the buffer and the
value stored in `*out_len`. -/
def pack_auth_request (HID_j : List Nat) (CHlen : Nat) (x_p : List Nat) : List Nat × Nat :=
  let hid_len := HID_j.length % 256
  let x_p_len := x_p.length % 256
  let out_len := (1 + hid_len + 2 + 1 + x_p_len) % 65536
  let buffer := [hid_len] ++ HID_j.take hid_len ++ htons CHlen ++ [x_p_len] ++ x_p.take x_p_len
  (buffer, out_len)

/-- The struct `AuthMsgServer`. -/
structure AuthMsgServer where
  ACK : List Nat
  challenge : List Nat
  error_code : List Nat
  OFFSET : List Nat
  M : List Nat
  deriving DecidableEq, Repr

/-- `unpack_auth_msg_server(payload, payload_len, &msg)` for a buffer of
`payload_len = payload.length` bytes; `none` is the return value -1. -/
def unpack_auth_msg_server (payload : List Nat) : Option AuthMsgServer :=
  let payload_len := payload.length
  let offset := 0
  if offset ≥ payload_len then none else
  let ack_len := payload.getD offset 0 % 256
  let offset := offset + 1
  if offset + ack_len > payload_len then none else
  let ACK := strndup (payload.drop offset) ack_len
  let offset := offset + ack_len
  if offset ≥ payload_len then none else
  let chall_len := payload.getD offset 0 % 256
  let offset := offset + 1
  if offset + chall_len > payload_len then none else
  let challenge := strndup (payload.drop offset) chall_len
  let offset := offset + chall_len
  if offset ≥ payload_len then none else
  let err_len := payload.getD offset 0 % 256
  let offset := offset + 1
  if offset + err_len > payload_len then none else
  let error_code := strndup (payload.drop offset) err_len
  let offset := offset + err_len
  if offset ≥ payload_len then none else
  let off_len := payload.getD offset 0 % 256
  let offset := offset + 1
  if offset + off_len > payload_len then none else
  let OFFSET := strndup (payload.drop offset) off_len
  let offset := offset + off_len
  if offset ≥ payload_len then none else
  let m_len := payload.getD offset 0 % 256
  let offset := offset + 1
  if offset + m_len > payload_len then none else
  let M := strndup (payload.drop offset) m_len
  some { ACK := ACK, challenge := challenge, error_code := error_code, OFFSET := OFFSET, M := M }

/-- `pack_auth_msg_response(HID_j, COM_prime, Z, &out_len)`: the buffer and
the value stored in `*out_len`. -/
def pack_auth_msg_response (HID_j COM_prime Z : List Nat) : List Nat × Nat :=
  let hid_len := HID_j.length % 256
  let com_len := COM_prime.length % 256
  let z_len := Z.length % 256
  let out_len := (1 + hid_len + 1 + com_len + 1 + z_len) % 65536
  let buffer := [hid_len] ++ HID_j.take hid_len ++ [com_len] ++ COM_prime.take com_len
    ++ [z_len] ++ Z.take z_len
  (buffer, out_len)

/-- `unpack_auth_done(payload, payload_len)` for a buffer of
`payload_len = payload.length` bytes; `none` is the return value `NULL`. -/
def unpack_auth_done (payload : List Nat) : Option (List Nat) :=
  let payload_len := payload.length
  if payload_len < 1 then none else
  let mtl_len := payload.getD 0 0 % 256
  if payload_len < 1 + mtl_len then none else
  some (strndup (payload.drop 1) mtl_len)


/-- The stub `getCRP()`: the dummy 40-character binary response. -/
def getCRP : List Nat :=
  [49, 48, 49, 48, 49, 48, 49, 48, 49, 48, 49, 48, 49, 48, 49, 48, 49, 48, 49, 48,
   49, 48, 49, 48, 49, 48, 49, 48, 49, 48, 49, 48, 49, 48, 49, 48, 49, 48, 49, 48]

/-! ## More of the C library -/

/-- What `"%d"` prints for an `int`. -/
def fmt_d (v : Int) : List Nat :=
  if v < 0 then 45 :: decDigits 10 v.natAbs else decDigits 10 v.natAbs

/-- What `"%02d"` prints for an `int`: at least two characters, padded with
zeros. -/
def fmt_02d (v : Int) : List Nat :=
  if v < 0 then 45 :: decDigits 10 v.natAbs
  else if v < 10 then [48, 48 + v.natAbs]
  else decDigits 10 v.natAbs

/-! ## Error correction -/

/-- The `for (i = 0; i < ec_len; i += 2)` loop of `error_correction`, from
index `i` on with the buffer `corrected`; `fuel` bounds the iterations left.
`parity` is the string made of `error_code[i]` and `error_code[i+1]` (one
character only when `error_code[i+1]` is the terminating NUL); `sum % 4` is
C's truncating remainder. -/
def error_correction_loop (error_code : List Nat) (resp_len : Nat) :
    Nat → Nat → List Nat → List Nat
  | 0, _, corrected => corrected
  | fuel + 1, i, corrected =>
    if i < error_code.length then
      let parity := (error_code.drop i).take 2
      let index := (i / 2) * 4
      let corrected1 :=
        if index + 3 < resp_len then
          let sum : Int := ([0, 1, 2, 3].map
            (fun j => ((corrected.getD (index + j) 0 : Nat) : Int) - 48)).sum
          let mod_val := Int.tmod sum 4
          let mod_str := fmt_02d mod_val
          if mod_str ≠ parity then
            corrected.set index (if corrected.getD index 0 = 48 then 49 else 48)
          else corrected
        else corrected
      error_correction_loop error_code resp_len fuel (i + 2) corrected1
    else corrected

/-- `error_correction(response, error_code)`: the corrected copy of
`response`.  The loop advances by 2, so `ec_len` iterations are enough. -/
def error_correction (response error_code : List Nat) : List Nat :=
  error_correction_loop error_code response.length error_code.length 0 response

/-- `int_to_str(num)`: `snprintf(buf, 16, "%d", num)`. -/
def int_to_str (num : Int) : List Nat := (fmt_d num).take 15

/-! ## The session of `start_prover` -/

/-- What the program does with its encoders and its socket, in order. -/
inductive Event where
  /-- a call `pack_auth_request(HID_j, CHlen, x_p, ..)` -/
  | pack_request (HID_j : List Nat) (CHlen : Nat) (x_p : List Nat)
  /-- a call `pack_auth_msg_response(HID_j, COM_prime, Z, ..)` -/
  | pack_response (HID_j COM_prime Z : List Nat)
  /-- a call `send_message(sockfd, msgType, payload, payload_len)` and its
  return value -/
  | sent (msgType : Nat) (payload : List Nat) (payload_len : Nat) (ret : Int)
  deriving DecidableEq, Repr

/-- The local variables of `start_prover`, the two sides of the socket, and
two observations that are not variables of the program: the events so far
and whether the loop was left by the early-termination `break`. -/
structure Session where
  ID_j : List Nat
  HID_j : List Nat
  CHlen : Nat
  x_p_str : List Nat
  x_pv : List Nat
  i : Nat
  M : List Nat
  original_x : Int
  Z : List Nat
  start_auth : Bool
  received_M : Bool
  r_prime : Option (List Nat)
  sock : Sock
  wire : List Nat
  trace : List Event
  early_exit : Bool
  deriving DecidableEq, Repr

/-- What one iteration of the loop gets from outside the program: the value
`rand()` returns if `ZXK` is called, and how many bytes the two `send` calls
of `send_message` take. -/
structure StepEnv where
  rnd : Nat
  acc1 : Int
  acc2 : Int

/-- Lines 280-333 of `start_prover` on a connected socket: the identity, the
blinding value, the `AUTH_REQUEST` and the initial values of the loop
variables.  `rand0` is the value of the first `rand()`, `acc1` and `acc2`
what the two `send` calls take.  `none` is `exit(EXIT_FAILURE)`. -/
def start_prover_init (SHA256 : List Nat → List Nat) (rand0 : Nat) (acc1 acc2 : Int)
    (board : List Nat) (sock : Sock) : Option Session :=
  let ID_j := ([77, 68, 95] ++ board).take 63
  let HID_j := hash_value SHA256 [ID_j]
  let CHlen := 5
  let x_p_val : Int := ((rand0 % 9000 : Nat) : Int) + 1000
  let x_p_str := (fmt_d x_p_val).take 15
  let x_pv := hash_value SHA256 [x_p_str, ID_j]
  match pack_auth_request HID_j CHlen x_p_str with
  | (req_payload, req_len) =>
    match send_message [] acc1 acc2 AUTH_REQUEST req_payload req_len with
    | (ret, wire) =>
      if ret < 0 then none
      else some
        { ID_j := ID_j, HID_j := HID_j, CHlen := CHlen, x_p_str := x_p_str, x_pv := x_pv,
          i := 0, M := [], original_x := 0, Z := [], start_auth := false,
          received_M := false, r_prime := none, sock := sock, wire := wire,
          trace := [Event.pack_request HID_j CHlen x_p_str,
                    Event.sent AUTH_REQUEST req_payload req_len ret],
          early_exit := false }

/-- Lines 354-380: the start check and the acknowledgment check for a
decoded `AUTH_MSG`.  `none` is the early-termination `break`; otherwise the
session with `start_auth`, `Z` and `received_M` as the checks leave them. -/
def check_ack (SHA256 : List Nat → List Nat) (st : Session) (authMsg : AuthMsgServer) :
    Option Session :=
  if !st.start_auth then
    if authMsg.ACK = [70, 70] then some { st with start_auth := true }
    else some st
  else
    match st.r_prime with
    | some r_prime =>
      let Auth_ACK := hash_value SHA256 [r_prime, st.ID_j, st.x_pv]
      if authMsg.ACK = Auth_ACK then
        if st.received_M then none else some st
      else some { st with Z := [], received_M := false }
    | none => some st

/-- Lines 354-417: what the loop body does with a decoded `AUTH_MSG`.  The
flag is true when the loop is left by `break`. -/
def process_auth_msg (SHA256 : List Nat → List Nat) (env : StepEnv) (st : Session)
    (authMsg : AuthMsgServer) : Session × Bool :=
  match check_ack SHA256 st authMsg with
  | none => ({ st with i := st.CHlen, early_exit := true }, true)
  | some st1 =>
    let crp_response := getCRP
    let r_prime := error_correction crp_response authMsg.error_code
    let COM_prime := hash_value SHA256 [r_prime, authMsg.challenge, st1.x_pv]
    let st2 :=
      if authMsg.M.length > 0 then
        match ZXK SHA256 env.rnd authMsg.M r_prime with
        | (Z_str, x) =>
          { st1 with r_prime := some r_prime, Z := Z_str.take 31, original_x := (x : Int),
                     received_M := true }
      else { st1 with r_prime := some r_prime }
    match pack_auth_msg_response st2.HID_j COM_prime st2.Z with
    | (resp_payload, resp_len) =>
      match send_message st2.wire env.acc1 env.acc2 AUTH_MSG resp_payload resp_len with
      | (ret, wire) =>
        let st3 := { st2 with wire := wire,
                              trace := st2.trace ++ [Event.pack_response st2.HID_j COM_prime st2.Z,
                                Event.sent AUTH_MSG resp_payload resp_len ret] }
        if ret < 0 then (st3, true)
        else ({ st3 with i := st3.i + 1 }, false)

/-- Lines 336-417: one iteration of the `while (i < CHlen)` loop.  The flag
is true when the loop is left by `break`; the three `continue` paths return
the session with only the socket advanced. -/
def loop_body (SHA256 : List Nat → List Nat) (env : StepEnv) (st : Session) : Session × Bool :=
  match recv_message st.sock with
  | (none, sock1) => ({ st with sock := sock1 }, false)
  | (some (msgType, payload, _), sock1) =>
    if msgType ≠ AUTH_MSG then ({ st with sock := sock1 }, false)
    else
      match unpack_auth_msg_server payload with
      | none => ({ st with sock := sock1 }, false)
      | some authMsg => process_auth_msg SHA256 env { st with sock := sock1 } authMsg

/-- The `while (i < CHlen)` loop for at most `fuel` iterations, `n` being
the number of the next iteration.  The flag is true when the loop has been
left (by its condition or by `break`) and false when iterations remain: the
loop does not end while `recv_message` keeps failing. -/
def round_loop (SHA256 : List Nat → List Nat) (env : Nat → StepEnv) :
    Nat → Nat → Session → Session × Bool
  | 0, _, st => (st, false)
  | fuel + 1, n, st =>
    if st.i < st.CHlen then
      match loop_body SHA256 (env n) st with
      | (st1, true) => (st1, true)
      | (st1, false) => round_loop SHA256 env fuel (n + 1) st1
    else (st, true)

/-- How `start_prover` ends. -/
inductive Verdict where
  /-- `exit(EXIT_FAILURE)` -/
  | exit_failure
  /-- "Mutual Authentication Completed" -/
  | completed
  /-- "MTL mismatch" -/
  | mismatch
  /-- "Did not receive proper AUTH_DONE message" -/
  | not_auth_done
  /-- `printf("%s")` and `strcmp` are called with `MTL == NULL` -/
  | null_mtl_used
  /-- the round loop is still running when the iterations run out -/
  | still_in_loop
  deriving DecidableEq, Repr

/-- Lines 432-434: the value the received MTL is compared with. -/
def Original_MTL (SHA256 : List Nat → List Nat) (st : Session) : List Nat :=
  hash_value SHA256 [int_to_str st.original_x, st.M]

/-- Lines 420-446: the final `recv_message` and the verdict.  The result of
`unpack_auth_done` is used without a test. -/
def final_step (SHA256 : List Nat → List Nat) (st : Session) : Verdict :=
  match recv_message st.sock with
  | (none, _) => Verdict.exit_failure
  | (some (final_msgType, final_payload, _), _) =>
    if final_msgType = AUTH_DONE then
      match unpack_auth_done final_payload with
      | none => Verdict.null_mtl_used
      | some MTL =>
        if Original_MTL SHA256 st = MTL then Verdict.completed else Verdict.mismatch
    else Verdict.not_auth_done

/-- `start_prover(board)` on a connected socket, with at most `fuel`
iterations of the round loop: the verdict and the session at the end of the
loop. -/
def start_prover (SHA256 : List Nat → List Nat) (rand0 : Nat) (acc1 acc2 : Int)
    (env : Nat → StepEnv) (fuel : Nat) (board : List Nat) (sock : Sock) :
    Verdict × Option Session :=
  match start_prover_init SHA256 rand0 acc1 acc2 board sock with
  | none => (Verdict.exit_failure, none)
  | some st0 =>
    match round_loop SHA256 env fuel 0 st0 with
    | (st, false) => (Verdict.still_in_loop, some st)
    | (st, true) => (final_step SHA256 st, some st)

/-! ## SHA-256 and the frames of a peer, for concrete sessions -/

/-- The 64 round constants of SHA-256, written in decimal. -/
def sha256_K : List Nat :=
  [1116352408, 1899447441, 3049323471, 3921009573, 961987163, 1508970993,
   2453635748, 2870763221, 3624381080, 310598401, 607225278, 1426881987,
   1925078388, 2162078206, 2614888103, 3248222580, 3835390401, 4022224774,
   264347078, 604807628, 770255983, 1249150122, 1555081692, 1996064986,
   2554220882, 2821834349, 2952996808, 3210313671, 3336571891, 3584528711,
   113926993, 338241895, 666307205, 773529912, 1294757372, 1396182291,
   1695183700, 1986661051, 2177026350, 2456956037, 2730485921, 2820302411,
   3259730800, 3345764771, 3516065817, 3600352804, 4094571909, 275423344,
   430227734, 506948616, 659060556, 883997877, 958139571, 1322822218,
   1537002063, 1747873779, 1955562222, 2024104815, 2227730452, 2361852424,
   2428436474, 2756734187, 3204031479, 3329325298]

/-- The initial hash value of SHA-256, written in decimal. -/
def sha256_H0 : List Nat :=
  [1779033703, 3144134277, 1013904242, 2773480762, 1359893119, 2600822924,
   528734635, 1541459225]

/-- Rotation of a 32-bit word to the right. -/
def rotr32 (x n : Nat) : Nat := ((x >>> n) ||| (x <<< (32 - n))) % 2 ^ 32

/-- The padded message: a multiple of 64 bytes. -/
def sha256_pad (msg : List Nat) : List Nat :=
  let l := msg.length
  let k := (64 - (l + 9) % 64) % 64
  let bits := 8 * l
  msg ++ [0x80] ++ List.replicate k 0 ++
    [bits / 2 ^ 56 % 256, bits / 2 ^ 48 % 256, bits / 2 ^ 40 % 256, bits / 2 ^ 32 % 256,
     bits / 2 ^ 24 % 256, bits / 2 ^ 16 % 256, bits / 2 ^ 8 % 256, bits % 256]

/-- Big-endian 32-bit words of a block. -/
def sha256_words : List Nat → List Nat
  | a :: b :: c :: d :: rest =>
    ((((a % 256) * 256 + b % 256) * 256 + c % 256) * 256 + d % 256) :: sha256_words rest
  | _ => []

/-- The message schedule, extended by `n` words. -/
def sha256_schedule : Nat → List Nat → List Nat
  | 0, w => w
  | n + 1, w =>
    let t := w.length
    let w2 := w.getD (t - 2) 0
    let w7 := w.getD (t - 7) 0
    let w15 := w.getD (t - 15) 0
    let w16 := w.getD (t - 16) 0
    let s0 := rotr32 w15 7 ^^^ rotr32 w15 18 ^^^ (w15 >>> 3)
    let s1 := rotr32 w2 17 ^^^ rotr32 w2 19 ^^^ (w2 >>> 10)
    sha256_schedule n (w ++ [(s1 + w7 + s0 + w16) % 2 ^ 32])

/-- One round of the compression function on the eight working variables. -/
def sha256_round (s : List Nat) (kw : Nat × Nat) : List Nat :=
  match s with
  | [a, b, c, d, e, f, g, h] =>
    let S1 := rotr32 e 6 ^^^ rotr32 e 11 ^^^ rotr32 e 25
    let ch := (e &&& f) ^^^ ((2 ^ 32 - 1 - e) &&& g)
    let t1 := (h + S1 + ch + kw.1 + kw.2) % 2 ^ 32
    let S0 := rotr32 a 2 ^^^ rotr32 a 13 ^^^ rotr32 a 22
    let maj := (a &&& b) ^^^ (a &&& c) ^^^ (b &&& c)
    let t2 := (S0 + maj) % 2 ^ 32
    [(t1 + t2) % 2 ^ 32, a, b, c, (d + t1) % 2 ^ 32, e, f, g]
  | _ => s

/-- The compression function on one 64-byte block. -/
def sha256_compress (hs : List Nat) (block : List Nat) : List Nat :=
  let w := sha256_schedule 48 (sha256_words block)
  let s := (sha256_K.zip w).foldl sha256_round hs
  List.zipWith (fun x y => (x + y) % 2 ^ 32) hs s

/-- The compression function over `n` blocks. -/
def sha256_blocks : Nat → List Nat → List Nat → List Nat
  | 0, hs, _ => hs
  | n + 1, hs, data => sha256_blocks n (sha256_compress hs (data.take 64)) (data.drop 64)

/-- SHA-256 of FIPS 180-4, the function that OpenSSL's `SHA256` computes: the
32 digest bytes of a message. -/
def sha256 (msg : List Nat) : List Nat :=
  let data := sha256_pad msg
  let hs := sha256_blocks (data.length / 64) sha256_H0 data
  (hs.map fun x => [x / 2 ^ 24 % 256, x / 2 ^ 16 % 256, x / 2 ^ 8 % 256, x % 256]).flatten

/-- The bytes of a frame as a peer sends it: header, then payload. -/
def frame (msgType : Nat) (payload : List Nat) : List Nat :=
  [1, msgType, payload.length / 256, payload.length % 256] ++ payload

/-- The payload of a server `AUTH_MSG` with the five fields of `m`. -/
def auth_msg_payload (m : AuthMsgServer) : List Nat :=
  [m.ACK.length] ++ m.ACK ++ [m.challenge.length] ++ m.challenge ++ [m.error_code.length]
    ++ m.error_code ++ [m.OFFSET.length] ++ m.OFFSET ++ [m.M.length] ++ m.M

/-- An environment in which `rand()` returns 0 and every `send` takes all
the bytes offered. -/
def env_full : Nat → StepEnv := fun _ => { rnd := 0, acc1 := 4, acc2 := 65535 }

/-- The identity `"MD_1"` of board `"1"`. -/
def ID_board_1 : List Nat := [77, 68, 95, 49]

/-- A first server message: ACK `"FF"`, challenge `"c"`, no error code, no
offset, `M = "1"`. -/
def msg_start : AuthMsgServer :=
  { ACK := [70, 70], challenge := [99], error_code := [], OFFSET := [], M := [49] }

/-- A second server message whose ACK echoes `hash_value(3, r_prime, ID_j,
x_pv)` for the uncorrected response, the identity of board `"1"` and
`x_p = "1000"`; no `M`. -/
def msg_ack : AuthMsgServer :=
  { ACK := hash_value sha256
      [getCRP, ID_board_1, hash_value sha256 [[49, 48, 48, 48], ID_board_1]],
    challenge := [99], error_code := [], OFFSET := [], M := [] }

/-- The session of board `"1"` with `x_p = "1000"` when the round loop
starts, reading from `sock`: what `start_prover_init` returns when
`rand()` gives 0 and the `AUTH_REQUEST` is sent in full. -/
def session_start (sock : Sock) : Session :=
  { ID_j := ID_board_1, HID_j := hash_value sha256 [ID_board_1], CHlen := 5,
    x_p_str := [49, 48, 48, 48],
    x_pv := hash_value sha256 [[49, 48, 48, 48], ID_board_1],
    i := 0, M := [], original_x := 0, Z := [], start_auth := false, received_M := false,
    r_prime := none, sock := sock,
    wire := frame AUTH_REQUEST
      (pack_auth_request (hash_value sha256 [ID_board_1]) 5 [49, 48, 48, 48]).1,
    trace := [Event.pack_request (hash_value sha256 [ID_board_1]) 5 [49, 48, 48, 48],
              Event.sent AUTH_REQUEST
                (pack_auth_request (hash_value sha256 [ID_board_1]) 5 [49, 48, 48, 48]).1 72 0],
    early_exit := false }

/-- The session of board `"1"` after the first round: started, `M = "1"`
received with `x = 1000`, the uncorrected response as `r_prime`. -/
def session_round_1 (sock : Sock) : Session :=
  { session_start sock with
    i := 1, start_auth := true, received_M := true, r_prime := some getCRP,
    Z := [51, 48, 48, 48], original_x := 1000 }

/-- The final frame of a server that derives the MTL from `x = 1000` and
the `M = "1"` it supplied: `AUTH_DONE` with `hash_value(2, "1000", "1")`. -/
def frame_done : List Nat :=
  frame AUTH_DONE ([64] ++ hash_value sha256 [[49, 48, 48, 48], [49]])

/-! ## Auxiliary definitions for the proofs -/

/-- One field of `unpack_auth_msg_server` read at `offset`: the two bounds
checks, the `strndup` and the offset after the field. -/
def readField (payload : List Nat) (offset : Nat) : Option (List Nat × Nat) :=
  if offset ≥ payload.length then none else
  if offset + 1 + payload.getD offset 0 % 256 > payload.length then none else
  some (strndup (payload.drop (offset + 1)) (payload.getD offset 0 % 256),
    offset + 1 + payload.getD offset 0 % 256)

/-- One length-prefixed field read from the head of the remaining bytes:
the string and the bytes after the field. -/
def parseField : List Nat → Option (List Nat × List Nat)
  | [] => none
  | n :: t => if n % 256 > t.length then none else some (strndup t (n % 256), t.drop (n % 256))

/-- Five length-prefixed fields read one after the other from the head of
the payload. -/
def parseFields5 (payload : List Nat) : Option AuthMsgServer :=
  (parseField payload).bind fun a =>
  (parseField a.2).bind fun b =>
  (parseField b.2).bind fun c =>
  (parseField c.2).bind fun d =>
  (parseField d.2).bind fun e =>
  some { ACK := a.1, challenge := b.1, error_code := c.1, OFFSET := d.1, M := e.1 }

/-- The unsigned integer that a string of hexadecimal digits denotes, in
exact arithmetic. -/
def hexStringValue (s : List Nat) : Nat :=
  s.foldl (fun acc c => acc * 16 + (digitVal c).getD 0) 0

/-- A character `0`-`9` or `a`-`f`. -/
def isHexLower (c : Nat) : Bool := (48 ≤ c && c ≤ 57) || (97 ≤ c && c ≤ 102)

/-- The 32 bytes of the SHA-256 digest of the string `getCRP` returns,
`0c3d55721f00e4098906aedf44c9fc06b0f0ea3f8d1d1b62b5db7f8b7314fa78`. -/
def crp_digest : List Nat :=
  [12, 61, 85, 114, 31, 0, 228, 9, 137, 6, 174, 223, 68, 201, 252, 6,
   176, 240, 234, 63, 141, 29, 27, 98, 181, 219, 127, 139, 115, 20, 250, 120]

/-- The string `"ffffffffffffffff"`, sixteen hexadecimal digits. -/
def M_sixteen_f : List Nat := List.replicate 16 102

/-- The session after lines 384-401 of the loop body: `r_prime` replaced and,
for a non-empty `M`, the result of `ZXK` stored. -/
def session_after_ZXK (SHA256 : List Nat → List Nat) (env : StepEnv) (st1 : Session)
    (authMsg : AuthMsgServer) : Session :=
  if authMsg.M.length > 0 then
    { st1 with r_prime := some (error_correction getCRP authMsg.error_code),
               Z := (ZXK SHA256 env.rnd authMsg.M
                 (error_correction getCRP authMsg.error_code)).1.take 31,
               original_x := ((ZXK SHA256 env.rnd authMsg.M
                 (error_correction getCRP authMsg.error_code)).2 : Int),
               received_M := true }
  else { st1 with r_prime := some (error_correction getCRP authMsg.error_code) }

/-- The value `COM_prime` of line 390. -/
def COM_prime_of (SHA256 : List Nat → List Nat) (st1 : Session) (authMsg : AuthMsgServer) :
    List Nat :=
  hash_value SHA256 [error_correction getCRP authMsg.error_code, authMsg.challenge, st1.x_pv]

/-- Lines 382-417 of the loop body, from the session `st1` that the checks
of lines 354-380 leave: the response is computed, packed and sent. -/
def respond (SHA256 : List Nat → List Nat) (env : StepEnv) (st1 : Session)
    (authMsg : AuthMsgServer) : Session × Bool :=
  let st2 := session_after_ZXK SHA256 env st1 authMsg
  let COM_prime := COM_prime_of SHA256 st1 authMsg
  let p := pack_auth_msg_response st2.HID_j COM_prime st2.Z
  let r := send_message st2.wire env.acc1 env.acc2 AUTH_MSG p.1 p.2
  let st3 := { st2 with wire := r.2,
                        trace := st2.trace ++ [Event.pack_response st2.HID_j COM_prime st2.Z,
                                               Event.sent AUTH_MSG p.1 p.2 r.1] }
  if r.1 < 0 then (st3, true) else ({ st3 with i := st3.i + 1 }, false)

/-- An `AUTH_MSG` response that `send_message` reported as sent. -/
def isResponseSent : Event → Bool
  | Event.sent msgType _ _ ret => msgType == AUTH_MSG && ret == 0
  | _ => false

/-- The number of `AUTH_MSG` responses sent so far. -/
def responses_sent (st : Session) : Nat := st.trace.countP isResponseSent

/-- The number of `'1'` characters among the four characters of the window
`[4k, 4k+3]` of a binary response. -/
def windowBitSum (response : List Nat) (k : Nat) : Nat :=
  (((response.drop (4 * k)).take 4).map (fun c => c - 48)).sum

/-- The two decimal digits of a number below 100. -/
def twoDigits (n : Nat) : List Nat := [48 + n / 10 % 10, 48 + n % 10]

/-- The value of `Z` in a session: empty, or the decimal form of a value
below `PRIME_USED`. -/
def Z_ok (Z : List Nat) : Prop := Z = [] ∨ ∃ v, v < PRIME_USED ∧ Z = fmt_lu v

/-- What holds of every encoder call and every message handed to
`send_message` in a session: the fields are as long as stated, so the
length bytes written are the true lengths and the payloads have the stated
sizes. -/
def event_ok : Event → Prop
  | Event.pack_request HID_j CHlen x_p =>
    HID_j.length = 64 ∧ (∀ c ∈ HID_j, isHexLower c = true)
      ∧ (∃ v, 1000 ≤ v ∧ v ≤ 9999
          ∧ x_p = [48 + v / 1000, 48 + v / 100 % 10, 48 + v / 10 % 10, 48 + v % 10])
      ∧ pack_auth_request HID_j CHlen x_p
          = ([HID_j.length] ++ HID_j ++ [CHlen / 256, CHlen % 256] ++ [x_p.length] ++ x_p, 72)
  | Event.pack_response HID_j COM_prime Z =>
    HID_j.length = 64 ∧ (∀ c ∈ HID_j, isHexLower c = true)
      ∧ COM_prime.length = 64 ∧ (∀ c ∈ COM_prime, isHexLower c = true)
      ∧ Z_ok Z ∧ Z.length ≤ 10
      ∧ pack_auth_msg_response HID_j COM_prime Z
          = ([HID_j.length] ++ HID_j ++ [COM_prime.length] ++ COM_prime ++ [Z.length] ++ Z,
             131 + Z.length)
  | Event.sent msgType payload payload_len _ =>
    payload.length = payload_len ∧ (msgType = AUTH_REQUEST → payload_len = 72)
      ∧ (msgType = AUTH_MSG → payload_len ≤ 141)

/-- Every event of a list of events is as stated. -/
def trace_ok (trace : List Event) : Prop := ∀ e ∈ trace, event_ok e

theorem recv_nil (len : Nat) : recv [] len = (0, [], []) := rfl

theorem recv_cons (c : List Nat) (rest : Sock) (len : Nat) :
    recv (c :: rest) len =
      (((c.take len).length : Int), c.take len,
        if (c.drop len).isEmpty then rest else c.drop len :: rest) := rfl

/-- What one `recv` delivers and leaves behind. -/
theorem recv_flatten (s : Sock) (len : Nat) :
    (recv s len).2.1 ++ (recv s len).2.2.flatten = s.flatten
    ∧ (recv s len).1 = ((recv s len).2.1.length : Int)
    ∧ (recv s len).2.1.length ≤ len := by
  cases s with
  | nil => simp [recv_nil]
  | cons c rest =>
    rw [recv_cons]
    refine ⟨?_, rfl, ?_⟩
    · by_cases h : (c.drop len).isEmpty
      · have h2 : c.drop len = [] := by simpa using h
        have h3 : c.take len = c := by
          have := List.take_append_drop len c
          rw [h2] at this; simpa using this
        simp [h, h3]
      · simp [h, ← List.append_assoc]
    · simp

theorem recvallLoop_zero (s : Sock) (n total : Nat) (buf : List Nat) :
    recvallLoop 0 s n total buf = ((total : Int), buf, s) := rfl

theorem recvallLoop_succ (fuel : Nat) (s : Sock) (n total : Nat) (buf : List Nat) :
    recvallLoop (fuel + 1) s n total buf =
      if total < n then
        if (recv s (n - total)).1 ≤ 0 then
          ((recv s (n - total)).1, buf ++ (recv s (n - total)).2.1, (recv s (n - total)).2.2)
        else recvallLoop fuel (recv s (n - total)).2.2 n
          (total + (recv s (n - total)).1.toNat) (buf ++ (recv s (n - total)).2.1)
      else ((total : Int), buf, s) := by
  rw [recvallLoop]

/-- The loop of `recvall` either stops on a non-positive `recv` with bytes
still missing, or returns `n` having taken exactly the next `n - total`
bytes of the stream. -/
theorem recvallLoop_spec (fuel : Nat) : ∀ (s : Sock) (n total : Nat) (buf : List Nat),
    total ≤ n → n - total ≤ fuel →
    ((recvallLoop fuel s n total buf).1 ≤ 0 ∧ total < n) ∨
    ((recvallLoop fuel s n total buf).1 = (n : Int)
      ∧ (recvallLoop fuel s n total buf).2.1 = buf ++ s.flatten.take (n - total)
      ∧ (recvallLoop fuel s n total buf).2.2.flatten = s.flatten.drop (n - total)
      ∧ n - total ≤ s.flatten.length) := by
  induction fuel with
  | zero =>
    intro s n total buf h1 h2
    right
    have h3 : n - total = 0 := by omega
    have h4 : total = n := by omega
    simp [recvallLoop_zero, h3, h4]
  | succ fuel ih =>
    intro s n total buf h1 h2
    rw [recvallLoop_succ]
    by_cases hlt : total < n
    · obtain ⟨hfl, hb, hle⟩ := recv_flatten s (n - total)
      rw [if_pos hlt]
      generalize recv s (n - total) = r at hfl hb hle ⊢
      obtain ⟨bytes, d, s1⟩ := r
      simp only at hfl hb hle ⊢
      subst hb
      by_cases hb0 : (d.length : Int) ≤ 0
      · rw [if_pos hb0]; left; exact ⟨hb0, hlt⟩
      · rw [if_neg hb0]
        have hpos : 0 < d.length := by omega
        rw [Int.toNat_ofNat]
        rcases ih s1 n (total + d.length) (buf ++ d) (by omega) (by omega)
          with h | ⟨e1, e2, e3, e4⟩
        · left; exact ⟨h.1, hlt⟩
        · right
          have hk : n - total = d.length + (n - (total + d.length)) := by omega
          refine ⟨e1, ?_, ?_, ?_⟩
          · rw [e2, ← hfl, hk, List.take_append, List.append_assoc]
          · rw [e3, ← hfl, hk, List.drop_append]
          · rw [← hfl, List.length_append]; omega
    · rw [if_neg hlt]
      right
      have h3 : n - total = 0 := by omega
      have h4 : total = n := by omega
      simp [h3, h4]

/-- On a stream of non-empty chunks a `recv` of at least one byte delivers
at least one byte and leaves non-empty chunks. -/
theorem recv_nonempty (s : Sock) (len : Nat) (hne : ∀ c ∈ s, c ≠ []) (hlen : 0 < len)
    (hs : s ≠ []) :
    0 < (recv s len).2.1.length ∧ ∀ c ∈ (recv s len).2.2, c ≠ [] := by
  cases s with
  | nil => exact absurd rfl hs
  | cons c rest =>
    rw [recv_cons]
    have hc : c ≠ [] := hne c (List.mem_cons_self _ _)
    have hrest : ∀ x ∈ rest, x ≠ [] := fun x hx => hne x (List.mem_cons_of_mem _ hx)
    constructor
    · have : 0 < c.length := List.length_pos.mpr hc
      simp only [List.length_take]; omega
    · by_cases h : (c.drop len).isEmpty
      · simpa [h] using hrest
      · intro x hx
        simp only [h] at hx
        rcases List.mem_cons.mp hx with rfl | hx
        · intro h0; apply h; simp [h0]
        · exact hrest x hx

/-- With enough bytes on a stream of non-empty chunks the loop of `recvall`
returns `n` and leaves non-empty chunks. -/
theorem recvallLoop_ok (fuel : Nat) : ∀ (s : Sock) (n total : Nat) (buf : List Nat),
    total ≤ n → n - total ≤ fuel → (∀ c ∈ s, c ≠ []) → n - total ≤ s.flatten.length →
    (recvallLoop fuel s n total buf).1 = (n : Int)
      ∧ ∀ c ∈ (recvallLoop fuel s n total buf).2.2, c ≠ [] := by
  induction fuel with
  | zero =>
    intro s n total buf h1 h2 hne _
    have h4 : total = n := by omega
    simpa [recvallLoop_zero, h4] using hne
  | succ fuel ih =>
    intro s n total buf h1 h2 hne hlen
    rw [recvallLoop_succ]
    by_cases hlt : total < n
    · rw [if_pos hlt]
      have hs : s ≠ [] := by
        rintro rfl
        simp at hlen; omega
      obtain ⟨hpos, hne1⟩ := recv_nonempty s (n - total) hne (by omega) hs
      obtain ⟨hfl, hb, hle⟩ := recv_flatten s (n - total)
      generalize recv s (n - total) = r at hfl hb hle hpos hne1 ⊢
      obtain ⟨bytes, d, s1⟩ := r
      simp only at hfl hb hle hpos hne1 ⊢
      subst hb
      have hb0 : ¬ (d.length : Int) ≤ 0 := by omega
      rw [if_neg hb0, Int.toNat_ofNat]
      have hl2 : s.flatten.length = d.length + s1.flatten.length := by
        rw [← hfl, List.length_append]
      exact ih s1 n (total + d.length) (buf ++ d) (by omega) (by omega) hne1 (by omega)
    · rw [if_neg hlt]
      have h4 : total = n := by omega
      simpa [h4] using hne

/-- Reading `n` bytes from a stream of non-empty chunks that holds at least
`n` bytes: `recvall` returns `n`, stores the first `n` bytes and leaves the
rest. -/
theorem recvall_ok (s : Sock) (n : Nat) (hne : ∀ c ∈ s, c ≠ []) (hlen : n ≤ s.flatten.length) :
    (recvall s n).1 = (n : Int) ∧ (recvall s n).2.1 = s.flatten.take n
      ∧ (recvall s n).2.2.flatten = s.flatten.drop n
      ∧ ∀ c ∈ (recvall s n).2.2, c ≠ [] := by
  unfold recvall
  obtain ⟨h1, h2⟩ := recvallLoop_ok n s n 0 [] (by omega) (by omega) hne (by simpa using hlen)
  rcases recvallLoop_spec n s n 0 [] (by omega) (by omega) with h | ⟨_, e2, e3, _⟩
  · omega
  · exact ⟨h1, by simpa using e2, by simpa using e3, h2⟩

/-- When `recvall` returns `n` the stream held at least `n` bytes, the first
`n` were stored and the rest is left; otherwise its return value is
non-positive and `n` is positive. -/
theorem recvall_spec (s : Sock) (n : Nat) :
    ((recvall s n).1 ≤ 0 ∧ 0 < n) ∨
    ((recvall s n).1 = (n : Int) ∧ (recvall s n).2.1 = s.flatten.take n
      ∧ (recvall s n).2.2.flatten = s.flatten.drop n ∧ n ≤ s.flatten.length) := by
  unfold recvall
  rcases recvallLoop_spec n s n 0 [] (by omega) (by omega) with h | ⟨e1, e2, e3, e4⟩
  · left; exact h
  · right; exact ⟨e1, by simpa using e2, by simpa using e3, by simpa using e4⟩

/-- Fuel beyond `n - total` does not change the result of the loop, so the
fuel `n` that `recvall` supplies is never exhausted with bytes missing. -/
theorem recvallLoop_fuel (fuel : Nat) : ∀ (extra : Nat) (s : Sock) (n total : Nat) (buf : List Nat),
    total ≤ n → n - total ≤ fuel →
    recvallLoop (fuel + extra) s n total buf = recvallLoop fuel s n total buf := by
  induction fuel with
  | zero =>
    intro extra s n total buf h1 h2
    have h4 : ¬ total < n := by omega
    cases extra with
    | zero => rfl
    | succ e => rw [Nat.zero_add, recvallLoop_succ, if_neg h4, recvallLoop_zero]
  | succ fuel ih =>
    intro extra s n total buf h1 h2
    rw [Nat.add_right_comm, recvallLoop_succ, recvallLoop_succ]
    by_cases hlt : total < n
    · obtain ⟨hfl, hb, hle⟩ := recv_flatten s (n - total)
      simp only [if_pos hlt]
      by_cases hb0 : (recv s (n - total)).1 ≤ 0
      · simp only [if_pos hb0]
      · simp only [if_neg hb0]
        have : (recv s (n - total)).1.toNat = (recv s (n - total)).2.1.length := by
          rw [hb]; simp
        have hpos : 0 < (recv s (n - total)).2.1.length := by rw [hb] at hb0; omega
        exact ih extra _ n _ _ (by omega) (by omega)
    · simp only [if_neg hlt]

theorem flatten_nil_of_nonempty (s : Sock) (hne : ∀ c ∈ s, c ≠ []) (h : s.flatten = []) :
    s = [] := by
  cases s with
  | nil => rfl
  | cons c rest =>
    exfalso
    have hc : c ≠ [] := hne c (List.mem_cons_self _ _)
    simp only [List.flatten_cons, List.append_eq_nil] at h
    exact hc h.1

theorem ntohs_htons (v : Nat) (hv : v ≤ 65535) : ntohs (v / 256) (v % 256) = v := by
  unfold ntohs
  omega

/-- What `send_message` puts on the wire when both `send` calls take all
the bytes offered. -/
theorem send_message_full (wire : List Nat) (acc1 acc2 : Int) (msgType : Nat)
    (payload : List Nat) (ht : msgType < 256) (hl : payload.length ≤ 65535)
    (h1 : 4 ≤ acc1) (h2 : (payload.length : Int) ≤ acc2) :
    send_message wire acc1 acc2 msgType payload payload.length
      = (0, wire ++ [1, msgType, payload.length / 256, payload.length % 256] ++ payload) := by
  have ha1 : ¬ acc1 < 0 := by omega
  have ha2 : ¬ acc2 < 0 := by omega
  have hn1 : 4 ≤ acc1.toNat := by omega
  have hn2 : payload.length ≤ acc2.toNat := by omega
  have hm : msgType % 256 = msgType := Nat.mod_eq_of_lt ht
  have hh : (payload.length % 65536) / 256 = payload.length / 256 := by
    rw [Nat.mod_eq_of_lt (by omega)]
  have t1 : List.take acc1.toNat [1, msgType, payload.length / 256, payload.length % 256]
      = [1, msgType, payload.length / 256, payload.length % 256] :=
    List.take_of_length_le (by simpa using hn1)
  have t2 : List.take acc2.toNat payload = payload := List.take_of_length_le hn2
  simp [send_message, send, htons, ha1, ha2, hm, hh, t1, t2]

/-- Claim C1. Frame round trip: for every message type byte and every payload of at
most 65535 bytes, `send_message` on a socket that takes all bytes offered
returns 0 and writes the header `[1, type, length high byte, length low
byte]` followed by the payload; and `recv_message`, reading from a stream
that holds exactly those bytes (in chunks of any sizes), returns the same
type, the same payload and the same payload length, leaving nothing unread. -/
theorem C1_frame_round_trip (msgType : Nat) (payload : List Nat) (acc1 acc2 : Int) (s : Sock)
    (ht : msgType < 256) (hl : payload.length ≤ 65535)
    (h1 : 4 ≤ acc1) (h2 : (payload.length : Int) ≤ acc2)
    (hne : ∀ c ∈ s, c ≠ [])
    (hs : s.flatten = (send_message [] acc1 acc2 msgType payload payload.length).2) :
    send_message [] acc1 acc2 msgType payload payload.length
        = (0, [1, msgType, payload.length / 256, payload.length % 256] ++ payload)
      ∧ recv_message s = (some (msgType, payload, payload.length), []) := by
  have hsend := send_message_full [] acc1 acc2 msgType payload ht hl h1 h2
  rw [List.nil_append] at hsend
  refine ⟨hsend, ?_⟩
  rw [hsend] at hs
  simp only at hs
  obtain ⟨a1, a2, a3, a4⟩ := recvall_ok s 4 hne (by rw [hs]; simp)
  rw [hs] at a2 a3
  have a2' : (recvall s 4).2.1 = [1, msgType, payload.length / 256, payload.length % 256] := by
    rw [a2]; simp
  have a3' : (recvall s 4).2.2.flatten = payload := by
    rw [a3]; simp
  unfold recv_message
  generalize recvall s 4 = r at a1 a2' a3' a4
  obtain ⟨r, header, s1⟩ := r
  simp only at a1 a2' a3' a4 ⊢
  subst a1 a2'
  have hlen : ntohs (([1, msgType, payload.length / 256, payload.length % 256] : List Nat).getD 2 0)
      (([1, msgType, payload.length / 256, payload.length % 256] : List Nat).getD 3 0)
      = payload.length := by
    simpa using ntohs_htons payload.length hl
  have hty : ([1, msgType, payload.length / 256, payload.length % 256] : List Nat).getD 1 0
      = msgType := by simp
  rw [hlen, hty]
  obtain ⟨b1, b2, b3, b4⟩ := recvall_ok s1 payload.length a4 (by rw [a3'])
  rw [a3'] at b2 b3
  generalize recvall s1 payload.length = r2 at b1 b2 b3 b4
  obtain ⟨r2, p2, s2⟩ := r2
  simp only at b1 b2 b3 b4 ⊢
  have hs2 : s2 = [] := flatten_nil_of_nonempty s2 b4 (by rw [b3]; simp)
  subst b1
  simp [b2, hs2]

/-- Claim C1, witness: the type-7 frame with payload `[9, 8, 7]`, read back from three
chunks. -/
theorem C1_frame_round_trip_witness :
    send_message [] 4 3 7 [9, 8, 7] 3 = (0, [1, 7, 0, 3] ++ [9, 8, 7])
      ∧ recv_message [[1, 7, 0], [3, 9], [8, 7]] = (some (7, [9, 8, 7], 3), []) :=
  C1_frame_round_trip 7 [9, 8, 7] 4 3 [[1, 7, 0], [3, 9], [8, 7]] (by decide) (by decide)
    (by decide) (by decide) (by decide) (by decide)

/-- Claim C8. Truncated frames are rejected: when the stream closes having delivered
fewer than 4 bytes, or a 4-byte header declaring payload length
`hi * 256 + lo` followed by fewer bytes than that, `recv_message` returns
failure and hands no payload to the caller, however the bytes are chunked. -/
theorem C8_truncated_frame_rejected (s : Sock)
    (h : s.flatten.length < 4 ∨
      ∃ v t hi lo rest, hi < 256 ∧ lo < 256 ∧ s.flatten = [v, t, hi, lo] ++ rest
        ∧ rest.length < hi * 256 + lo) :
    (recv_message s).1 = none := by
  unfold recv_message
  rcases recvall_spec s 4 with ⟨a1, _⟩ | ⟨a1, a2, a3, a4⟩
  · generalize recvall s 4 = r at a1
    obtain ⟨r, header, s1⟩ := r
    simp only at a1 ⊢
    have : r ≠ 4 := by omega
    simp [this]
  · rcases h with h | ⟨v, t, hi, lo, rest, hhi, hlo, hfl, hrest⟩
    · omega
    · rw [hfl] at a2 a3
      have a2' : (recvall s 4).2.1 = [v, t, hi, lo] := by rw [a2]; simp
      have a3' : (recvall s 4).2.2.flatten = rest := by rw [a3]; simp
      generalize recvall s 4 = r at a1 a2' a3'
      obtain ⟨r, header, s1⟩ := r
      simp only at a1 a2' a3' ⊢
      subst a1 a2'
      have hlen : ntohs (([v, t, hi, lo] : List Nat).getD 2 0) (([v, t, hi, lo] : List Nat).getD 3 0)
          = hi * 256 + lo := by
        simp [ntohs, Nat.mod_eq_of_lt hhi, Nat.mod_eq_of_lt hlo]
      rw [hlen]
      rcases recvall_spec s1 (hi * 256 + lo) with ⟨b1, b0⟩ | ⟨_, _, _, b4⟩
      · generalize recvall s1 (hi * 256 + lo) = r2 at b1
        obtain ⟨r2, p2, s2⟩ := r2
        simp only at b1 ⊢
        have : ¬ r2 = (hi : Int) * 256 + (lo : Int) := by omega
        simp [this]
      · rw [a3'] at b4; omega

/-- Claim C8, witness: a header declaring 10 payload bytes followed by only 5. -/
theorem C8_truncated_frame_rejected_witness :
    (recv_message [[1, 7, 0, 10], [1, 2, 3, 4, 5]]).1 = none :=
  C8_truncated_frame_rejected [[1, 7, 0, 10], [1, 2, 3, 4, 5]]
    (Or.inr ⟨1, 7, 0, 10, [1, 2, 3, 4, 5], by decide, by decide, by decide, by decide⟩)

/-- Claim C3. For `HID_j` and `x_p` of at most 255 bytes and a 16-bit `CHlen`,
`pack_auth_request` returns exactly the buffer
`[len(HID)] ++ HID ++ [CHlen high byte, CHlen low byte] ++ [len(xp)] ++ xp`
and reports the length `len(HID) + len(xp) + 4`. -/
theorem C3_pack_auth_request_layout (HID_j : List Nat) (CHlen : Nat) (x_p : List Nat)
    (hh : HID_j.length ≤ 255) (hx : x_p.length ≤ 255) (hc : CHlen < 65536) :
    pack_auth_request HID_j CHlen x_p
      = ([HID_j.length] ++ HID_j ++ [CHlen / 256, CHlen % 256] ++ [x_p.length] ++ x_p,
         HID_j.length + x_p.length + 4) := by
  have e1 : HID_j.length % 256 = HID_j.length := Nat.mod_eq_of_lt (by omega)
  have e2 : x_p.length % 256 = x_p.length := Nat.mod_eq_of_lt (by omega)
  have e3 : CHlen % 65536 = CHlen := Nat.mod_eq_of_lt hc
  have e4 : (1 + HID_j.length + 2 + 1 + x_p.length) % 65536 = HID_j.length + x_p.length + 4 := by
    omega
  simp [pack_auth_request, htons, e1, e2, e3, e4]

/-- Claim C3, witness: `HID = "AB"`, `CHlen = 5`, `x_p = "1234"`. -/
theorem C3_pack_auth_request_layout_witness :
    pack_auth_request [65, 66] 5 [49, 50, 51, 52]
      = ([2] ++ [65, 66] ++ [5 / 256, 5 % 256] ++ [4] ++ [49, 50, 51, 52], 2 + 4 + 4) :=
  C3_pack_auth_request_layout [65, 66] 5 [49, 50, 51, 52] (by decide) (by decide) (by decide)

/-- Claim C4. For `HID_j`, `COM_prime` and `Z` of at most 255 bytes each,
`pack_auth_msg_response` returns exactly the buffer
`[len(HID)] ++ HID ++ [len(COM')] ++ COM' ++ [len(Z)] ++ Z` and reports the
length `len(HID) + len(COM') + len(Z) + 3`. -/
theorem C4_pack_auth_msg_response_layout (HID_j COM_prime Z : List Nat)
    (hh : HID_j.length ≤ 255) (hc : COM_prime.length ≤ 255) (hz : Z.length ≤ 255) :
    pack_auth_msg_response HID_j COM_prime Z
      = ([HID_j.length] ++ HID_j ++ [COM_prime.length] ++ COM_prime ++ [Z.length] ++ Z,
         HID_j.length + COM_prime.length + Z.length + 3) := by
  have e1 : HID_j.length % 256 = HID_j.length := Nat.mod_eq_of_lt (by omega)
  have e2 : COM_prime.length % 256 = COM_prime.length := Nat.mod_eq_of_lt (by omega)
  have e3 : Z.length % 256 = Z.length := Nat.mod_eq_of_lt (by omega)
  have e4 : (1 + HID_j.length + 1 + COM_prime.length + 1 + Z.length) % 65536
      = HID_j.length + COM_prime.length + Z.length + 3 := by omega
  simp [pack_auth_msg_response, e1, e2, e3, e4]

/-- Claim C4, witness: `HID = "AB"`, `COM' = "c"`, `Z = "42"`. -/
theorem C4_pack_auth_msg_response_layout_witness :
    pack_auth_msg_response [65, 66] [99] [52, 50]
      = ([2] ++ [65, 66] ++ [1] ++ [99] ++ [2] ++ [52, 50], 2 + 1 + 2 + 3) :=
  C4_pack_auth_msg_response_layout [65, 66] [99] [52, 50] (by decide) (by decide) (by decide)

/-- Claim C5. On over-long fields the encoders do not fail: for a 256-byte `HID_j`
`pack_auth_request` returns the 8-byte buffer in which the length byte of
`HID_j` is 0 and no byte of `HID_j` follows, and `pack_auth_msg_response`
returns a 6-byte buffer in the same way. -/
theorem C5_pack_narrows_overlong_field :
    pack_auth_request (List.replicate 256 97) 5 [49, 50, 51, 52]
        = ([0, 0, 5, 4, 49, 50, 51, 52], 8)
      ∧ pack_auth_msg_response (List.replicate 256 97) [99] [52, 50]
        = ([0, 1, 99, 2, 52, 50], 6) := by
  constructor
  · simp only [pack_auth_request, List.length_replicate, htons]
    rfl
  · simp only [pack_auth_msg_response, List.length_replicate]
    rfl

theorem readField_bind {β : Type} (payload : List Nat) (o : Nat)
    (k : List Nat × Nat → Option β) :
    (readField payload o).bind k =
      if o ≥ payload.length then none else
      if o + 1 + payload.getD o 0 % 256 > payload.length then none else
      k (strndup (payload.drop (o + 1)) (payload.getD o 0 % 256),
        o + 1 + payload.getD o 0 % 256) := by
  unfold readField
  split_ifs <;> rfl

/-- The body of `unpack_auth_msg_server` is five field reads in a row. -/
theorem unpack_auth_msg_server_eq (payload : List Nat) :
    unpack_auth_msg_server payload =
      (readField payload 0).bind fun a =>
      (readField payload a.2).bind fun b =>
      (readField payload b.2).bind fun c =>
      (readField payload c.2).bind fun d =>
      (readField payload d.2).bind fun e =>
      some { ACK := a.1, challenge := b.1, error_code := c.1, OFFSET := d.1, M := e.1 } := by
  simp only [readField_bind]
  rfl

theorem parseField_nil : parseField [] = none := rfl

theorem parseField_cons (n : Nat) (t : List Nat) :
    parseField (n :: t) =
      if n % 256 > t.length then none else some (strndup t (n % 256), t.drop (n % 256)) := rfl

/-- Reading a field at an offset is reading it from the head of the bytes
that start there. -/
theorem readField_bind_eq {β : Type} (payload : List Nat) (o : Nat) (ho : o ≤ payload.length)
    (k : List Nat × Nat → Option β) (k2 : List Nat × List Nat → Option β)
    (hk : ∀ s o2, o2 ≤ payload.length → k (s, o2) = k2 (s, payload.drop o2)) :
    (readField payload o).bind k = (parseField (payload.drop o)).bind k2 := by
  by_cases hlt : o < payload.length
  · have hd : payload.drop o = payload[o] :: payload.drop (o + 1) := List.drop_eq_getElem_cons hlt
    have hg : payload.getD o 0 = payload[o] := by
      rw [List.getD_eq_getElem?_getD, List.getElem?_eq_getElem hlt]; rfl
    have h1 : ¬ o ≥ payload.length := by omega
    rw [readField_bind, if_neg h1, hd, hg, parseField_cons]
    by_cases h2 : o + 1 + payload[o] % 256 > payload.length
    · have h3 : payload[o] % 256 > (payload.drop (o + 1)).length := by
        rw [List.length_drop]; omega
      rw [if_pos h2, if_pos h3]; rfl
    · have h3 : ¬ payload[o] % 256 > (payload.drop (o + 1)).length := by
        rw [List.length_drop]; omega
      rw [if_neg h2, if_neg h3, hk _ _ (by omega), List.drop_drop]
      rfl
  · have h1 : o ≥ payload.length := by omega
    have hd : payload.drop o = [] := List.drop_eq_nil_of_le h1
    rw [readField_bind, if_pos h1, hd, parseField_nil]
    rfl

/-- On every payload `unpack_auth_msg_server` reads five length-prefixed
fields from the head of the payload, one after the other. -/
theorem unpack_auth_msg_server_eq_parse (payload : List Nat) :
    unpack_auth_msg_server payload = parseFields5 payload := by
  rw [unpack_auth_msg_server_eq, parseFields5]
  conv_rhs => rw [← List.drop_zero (l := payload)]
  apply readField_bind_eq payload 0 (Nat.zero_le _)
  intro s1 o1 h1
  apply readField_bind_eq payload o1 h1
  intro s2 o2 h2
  apply readField_bind_eq payload o2 h2
  intro s3 o3 h3
  apply readField_bind_eq payload o3 h3
  intro s4 o4 h4
  apply readField_bind_eq payload o4 h4
  intro s5 o5 h5
  rfl

theorem strndup_append (f rest : List Nat) : strndup (f ++ rest) f.length = strndup f f.length := by
  unfold strndup
  rw [List.take_left, List.take_length]

theorem strndup_of_no_nul (f : List Nat) (hz : ∀ c ∈ f, c ≠ 0) : strndup f f.length = f := by
  unfold strndup
  rw [List.take_length, List.takeWhile_eq_self_iff]
  intro c hc
  simpa using hz c hc

/-- A complete length-prefixed field at the head of the bytes is read and
the bytes after it are left. -/
theorem parseField_field (f rest : List Nat) (hf : f.length ≤ 255) :
    parseField (f.length :: (f ++ rest)) = some (strndup f f.length, rest) := by
  have hm : f.length % 256 = f.length := Nat.mod_eq_of_lt (by omega)
  have h1 : ¬ f.length > (f ++ rest).length := by rw [List.length_append]; omega
  rw [parseField_cons, hm, if_neg h1, strndup_append, List.drop_left]

/-- When a field is read, the bytes began with a complete length-prefixed
field. -/
theorem parseField_some (l s r : List Nat) (hb : ∀ b ∈ l, b < 256)
    (h : parseField l = some (s, r)) :
    ∃ f, l = f.length :: (f ++ r) ∧ (∀ b ∈ r, b < 256) := by
  cases l with
  | nil => simp [parseField_nil] at h
  | cons n t =>
    have hn : n < 256 := hb n (List.mem_cons_self _ _)
    have hm : n % 256 = n := Nat.mod_eq_of_lt hn
    rw [parseField_cons, hm] at h
    by_cases h1 : n > t.length
    · rw [if_pos h1] at h; exact absurd h (by simp)
    · rw [if_neg h1] at h
      simp only [Option.some.injEq, Prod.mk.injEq] at h
      refine ⟨t.take n, ?_, ?_⟩
      · rw [← h.2, List.take_append_drop, List.length_take, Nat.min_eq_left (by omega)]
      · intro b hb2
        rw [← h.2] at hb2
        exact hb b (List.mem_cons_of_mem _ (List.mem_of_mem_drop hb2))

/-- Claim C2. Server-message payload round trip: for five strings of at most 255
bytes each that contain no zero byte, `unpack_auth_msg_server` applied to
`[len(ACK)] ++ ACK ++ [len(challenge)] ++ challenge ++ [len(error_code)] ++
error_code ++ [len(OFFSET)] ++ OFFSET ++ [len(M)] ++ M` succeeds and returns
exactly those five strings in that order. -/
theorem C2_unpack_auth_msg_server_round_trip (ACK challenge error_code OFFSET M : List Nat)
    (h1 : ACK.length ≤ 255) (h2 : challenge.length ≤ 255) (h3 : error_code.length ≤ 255)
    (h4 : OFFSET.length ≤ 255) (h5 : M.length ≤ 255)
    (z1 : ∀ c ∈ ACK, c ≠ 0) (z2 : ∀ c ∈ challenge, c ≠ 0) (z3 : ∀ c ∈ error_code, c ≠ 0)
    (z4 : ∀ c ∈ OFFSET, c ≠ 0) (z5 : ∀ c ∈ M, c ≠ 0) :
    unpack_auth_msg_server
        ([ACK.length] ++ ACK ++ [challenge.length] ++ challenge ++ [error_code.length]
          ++ error_code ++ [OFFSET.length] ++ OFFSET ++ [M.length] ++ M)
      = some { ACK := ACK, challenge := challenge, error_code := error_code,
               OFFSET := OFFSET, M := M } := by
  have e : [ACK.length] ++ ACK ++ [challenge.length] ++ challenge ++ [error_code.length]
          ++ error_code ++ [OFFSET.length] ++ OFFSET ++ [M.length] ++ M
      = ACK.length :: (ACK ++ (challenge.length :: (challenge ++ (error_code.length ::
          (error_code ++ (OFFSET.length :: (OFFSET ++ (M.length :: (M ++ []))))))))) := by
    simp
  rw [e, unpack_auth_msg_server_eq_parse, parseFields5]
  rw [parseField_field _ _ h1, Option.bind]
  simp only
  rw [parseField_field _ _ h2, Option.bind]
  simp only
  rw [parseField_field _ _ h3, Option.bind]
  simp only
  rw [parseField_field _ _ h4, Option.bind]
  simp only
  rw [parseField_field _ _ h5, Option.bind]
  simp only
  rw [strndup_of_no_nul _ z1, strndup_of_no_nul _ z2, strndup_of_no_nul _ z3,
    strndup_of_no_nul _ z4, strndup_of_no_nul _ z5]

/-- Claim C2, witness: ACK `"FF"`, challenge `"1"`, empty error code and offset,
M `"2"`. -/
theorem C2_unpack_auth_msg_server_round_trip_witness :
    unpack_auth_msg_server
        ([[70, 70].length] ++ [70, 70] ++ [[49].length] ++ [49] ++ [([] : List Nat).length]
          ++ [] ++ [([] : List Nat).length] ++ [] ++ [[50].length] ++ [50])
      = some { ACK := [70, 70], challenge := [49], error_code := [], OFFSET := [], M := [50] } :=
  C2_unpack_auth_msg_server_round_trip [70, 70] [49] [] [] [50] (by decide) (by decide)
    (by decide) (by decide) (by decide) (by decide) (by decide) (by decide) (by decide)
    (by decide)

/-- Five fields are read from the head of a payload of bytes exactly when
the payload begins with five complete length-prefixed fields. -/
theorem parseFields5_isSome_iff (payload : List Nat) (hb : ∀ b ∈ payload, b < 256) :
    parseFields5 payload ≠ none ↔
      ∃ f1 f2 f3 f4 f5 rest, payload = f1.length :: (f1 ++ (f2.length :: (f2 ++
        (f3.length :: (f3 ++ (f4.length :: (f4 ++ (f5.length :: (f5 ++ rest))))))))) := by
  constructor
  · intro h
    unfold parseFields5 at h
    cases hA : parseField payload with
    | none => rw [hA] at h; exact absurd rfl h
    | some a =>
      obtain ⟨f1, e1, hb1⟩ := parseField_some payload a.1 a.2 hb hA
      rw [hA, Option.bind] at h
      cases hB : parseField a.2 with
      | none => rw [hB] at h; exact absurd rfl h
      | some b =>
        obtain ⟨f2, e2, hb2⟩ := parseField_some a.2 b.1 b.2 hb1 hB
        rw [hB, Option.bind] at h
        cases hC : parseField b.2 with
        | none => rw [hC] at h; exact absurd rfl h
        | some c =>
          obtain ⟨f3, e3, hb3⟩ := parseField_some b.2 c.1 c.2 hb2 hC
          rw [hC, Option.bind] at h
          cases hD : parseField c.2 with
          | none => rw [hD] at h; exact absurd rfl h
          | some d =>
            obtain ⟨f4, e4, hb4⟩ := parseField_some c.2 d.1 d.2 hb3 hD
            rw [hD, Option.bind] at h
            cases hE : parseField d.2 with
            | none => rw [hE] at h; exact absurd rfl h
            | some e =>
              obtain ⟨f5, e5, _⟩ := parseField_some d.2 e.1 e.2 hb4 hE
              refine ⟨f1, f2, f3, f4, f5, e.2, ?_⟩
              rw [e1, e2, e3, e4, e5]
  · rintro ⟨f1, f2, f3, f4, f5, rest, rfl⟩
    have l1 : f1.length ≤ 255 := by have := hb f1.length (by simp); omega
    have l2 : f2.length ≤ 255 := by have := hb f2.length (by simp); omega
    have l3 : f3.length ≤ 255 := by have := hb f3.length (by simp); omega
    have l4 : f4.length ≤ 255 := by have := hb f4.length (by simp); omega
    have l5 : f5.length ≤ 255 := by have := hb f5.length (by simp); omega
    unfold parseFields5
    rw [parseField_field _ _ l1, Option.bind]
    simp only
    rw [parseField_field _ _ l2, Option.bind]
    simp only
    rw [parseField_field _ _ l3, Option.bind]
    simp only
    rw [parseField_field _ _ l4, Option.bind]
    simp only
    rw [parseField_field _ _ l5, Option.bind]
    exact Option.some_ne_none _

/-- Claim C6. On every payload of bytes `unpack_auth_msg_server` returns the error
result exactly when the payload does not begin with five complete
length-prefixed fields (some length byte is missing, or some declared
sub-length reaches past the end of the payload); otherwise it succeeds, and
bytes after the fifth field are ignored. -/
theorem C6_unpack_auth_msg_server_fails_iff (payload : List Nat)
    (hb : ∀ b ∈ payload, b < 256) :
    unpack_auth_msg_server payload = none ↔
      ¬ ∃ f1 f2 f3 f4 f5 rest, payload = [f1.length] ++ f1 ++ [f2.length] ++ f2
        ++ [f3.length] ++ f3 ++ [f4.length] ++ f4 ++ [f5.length] ++ f5 ++ rest := by
  have key := parseFields5_isSome_iff payload hb
  rw [unpack_auth_msg_server_eq_parse]
  simp only [List.append_assoc, List.singleton_append, List.cons_append, List.nil_append]
  constructor
  · intro h hex
    exact (key.mpr hex) h
  · intro h
    by_contra hne
    exact h (key.mp hne)

/-- Claim C6, witness: a payload whose fifth field declares 2 bytes with 1 present. -/
theorem C6_unpack_auth_msg_server_fails_iff_witness :
    unpack_auth_msg_server [2, 70, 70, 1, 49, 0, 0, 2, 50] = none ↔
      ¬ ∃ f1 f2 f3 f4 f5 rest, [2, 70, 70, 1, 49, 0, 0, 2, 50] = [f1.length] ++ f1
        ++ [f2.length] ++ f2 ++ [f3.length] ++ f3 ++ [f4.length] ++ f4 ++ [f5.length] ++ f5
        ++ rest :=
  C6_unpack_auth_msg_server_fails_iff [2, 70, 70, 1, 49, 0, 0, 2, 50] (by decide)

/-- Claim C7. On every payload of bytes `unpack_auth_done` fails exactly when the
payload is empty or shorter than `1 + payload[0]` bytes, and when the
payload has at least `1 + payload[0]` bytes, none of the `payload[0]` bytes
after the first being zero, it returns exactly those bytes as the MTL. -/
theorem C7_unpack_auth_done_spec (payload : List Nat) (hb : ∀ b ∈ payload, b < 256) :
    (unpack_auth_done payload = none ↔
        (payload = [] ∨ payload.length < 1 + payload.getD 0 0))
      ∧ (1 + payload.getD 0 0 ≤ payload.length →
          (∀ c ∈ (payload.drop 1).take (payload.getD 0 0), c ≠ 0) →
          unpack_auth_done payload = some ((payload.drop 1).take (payload.getD 0 0))) := by
  cases payload with
  | nil => simp [unpack_auth_done]
  | cons n t =>
    have hn : n < 256 := hb n (List.mem_cons_self _ _)
    have hm : n % 256 = n := Nat.mod_eq_of_lt hn
    constructor
    · simp only [unpack_auth_done, List.length_cons, List.getD_cons_zero, hm]
      have h0 : ¬ t.length + 1 < 1 := by omega
      rw [if_neg h0]
      by_cases h1 : t.length + 1 < 1 + n
      · simp [h1]
      · simp [h1]
    · intro hlen hz
      simp only [List.getD_cons_zero, List.length_cons, List.drop_succ_cons, List.drop_zero]
        at hlen hz ⊢
      have h0 : ¬ t.length + 1 < 1 := by omega
      have h1 : ¬ t.length + 1 < 1 + n := by omega
      simp only [unpack_auth_done, List.length_cons, List.getD_cons_zero, hm, if_neg h0,
        if_neg h1, List.drop_succ_cons, List.drop_zero, strndup]
      rw [List.takeWhile_eq_self_iff.mpr]
      intro c hc
      simpa using hz c hc

/-- Claim C7, witness: the payload `[2, 'A', 'B', 'C']` gives the MTL `"AB"`. -/
theorem C7_unpack_auth_done_spec_witness :
    (unpack_auth_done [2, 65, 66, 67] = none ↔
        (([2, 65, 66, 67] : List Nat) = [] ∨ ([2, 65, 66, 67] : List Nat).length < 1 + 2))
      ∧ unpack_auth_done [2, 65, 66, 67] = some [65, 66] :=
  ⟨(C7_unpack_auth_done_spec [2, 65, 66, 67] (by decide)).1,
   (C7_unpack_auth_done_spec [2, 65, 66, 67] (by decide)).2 (by decide) (by decide)⟩

theorem digitVal_of_isHexLower (c : Nat) (h : isHexLower c = true) :
    ∃ d, digitVal c = some d ∧ d < 16 := by
  unfold isHexLower at h
  simp only [Bool.or_eq_true, Bool.and_eq_true, decide_eq_true_eq] at h
  unfold digitVal
  rcases h with h | h
  · exact ⟨c - 48, by rw [if_pos h], by omega⟩
  · have h1 : ¬ (48 ≤ c ∧ c ≤ 57) := by omega
    have h2 : 97 ≤ c ∧ c ≤ 122 := by omega
    exact ⟨c - 87, by rw [if_neg h1, if_pos h2], by omega⟩

/-- On a string of hexadecimal digits the digit loop of `strtoul` computes
the exact value. -/
theorem strtoulDigits_hex (s : List Nat) (hs : ∀ c ∈ s, isHexLower c = true) :
    ∀ acc, strtoulDigits 16 s acc = s.foldl (fun a c => a * 16 + (digitVal c).getD 0) acc := by
  induction s with
  | nil => intro acc; rfl
  | cons c t ih =>
    intro acc
    obtain ⟨d, hd, hlt⟩ := digitVal_of_isHexLower c (hs c (List.mem_cons_self _ _))
    rw [strtoulDigits, hd]
    simp only [if_pos hlt, List.foldl_cons, hd, Option.getD_some]
    exact ih (fun x hx => hs x (List.mem_cons_of_mem _ hx)) _

/-- On a string of lower-case hexadecimal digits `strtoul` in base 16
returns the exact value when it fits `unsigned long` and `ULONG_MAX`
otherwise. -/
theorem strtoul_hex (s : List Nat) (hs : ∀ c ∈ s, isHexLower c = true) :
    strtoul s 16 = if hexStringValue s > ULONG_MAX then ULONG_MAX else hexStringValue s := by
  have hc : ∀ c, isHexLower c = true →
      isspace c = false ∧ c ≠ 45 ∧ c ≠ 43 ∧ c ≠ 120 ∧ c ≠ 88 := by
    intro c h
    unfold isHexLower at h
    simp only [Bool.or_eq_true, Bool.and_eq_true, decide_eq_true_eq] at h
    refine ⟨?_, by omega, by omega, by omega, by omega⟩
    unfold isspace
    simp only [Bool.or_eq_false_iff, Bool.and_eq_false_iff, beq_eq_false_iff_ne,
      decide_eq_false_iff_not]
    omega
  cases s with
  | nil => decide
  | cons c0 t =>
    obtain ⟨w0, n45, n43, -, -⟩ := hc c0 (hs c0 (List.mem_cons_self _ _))
    have e1 : (c0 :: t).dropWhile isspace = c0 :: t := by
      rw [List.dropWhile_cons, w0]; rfl
    have e3 : (match (c0 :: t) with
        | 48 :: 120 :: t2 => t2
        | 48 :: 88 :: t2 => t2
        | _ => c0 :: t) = c0 :: t := by
      cases t with
      | nil => split <;> simp_all
      | cons c1 t2 =>
        obtain ⟨-, -, -, n120, n88⟩ :=
          hc c1 (hs c1 (List.mem_cons_of_mem _ (List.mem_cons_self _ _)))
        split <;> simp_all
    unfold strtoul
    simp only [e1, List.head?_cons, List.tail_cons]
    have b1 : (some c0 == some 45) = false := by simpa using n45
    have b2 : (some c0 == some 43) = false := by simpa using n43
    simp only [b1, b2, Bool.or_self, Bool.false_eq_true, if_false, if_true, e3]
    rw [strtoulDigits_hex (c0 :: t) hs 0]
    rfl

theorem isHexLower_hexChar (d : Nat) (hd : d < 16) : isHexLower (hexChar d) = true := by
  unfold isHexLower hexChar
  by_cases h : d < 10
  · rw [if_pos h]
    simp only [Bool.or_eq_true, Bool.and_eq_true, decide_eq_true_eq]
    omega
  · rw [if_neg h]
    simp only [Bool.or_eq_true, Bool.and_eq_true, decide_eq_true_eq]
    omega

/-- Whatever the digest bytes are, `hash_value` returns lower-case
hexadecimal digits only. -/
theorem hash_value_isHexLower (SHA256 : List Nat → List Nat) (args : List (List Nat)) :
    ∀ c ∈ hash_value SHA256 args, isHexLower c = true := by
  intro c hc
  unfold hash_value at hc
  simp only [List.mem_flatten, List.mem_map] at hc
  obtain ⟨l, ⟨i, _, rfl⟩, hcl⟩ := hc
  unfold fmt_02x at hcl
  simp only [List.mem_cons, List.mem_singleton, List.not_mem_nil, or_false] at hcl
  rcases hcl with rfl | rfl
  · exact isHexLower_hexChar _ (by omega)
  · exact isHexLower_hexChar _ (by omega)

/-- In `ZXK` the value `R_hashed` is 3 for every response whose digest,
read as a number, does not fit `unsigned long`: `strtoul` returns
`ULONG_MAX`, and `ULONG_MAX % PRIME_USED = 3`. -/
theorem R_hashed_of_large_digest (SHA256 : List Nat → List Nat) (R : List Nat)
    (h : 2 ^ 64 ≤ hexStringValue (hash_value SHA256 [R])) :
    strtoul (hash_value SHA256 [R]) 16 % PRIME_USED = 3 := by
  rw [strtoul_hex _ (hash_value_isHexLower SHA256 [R])]
  have h2 : hexStringValue (hash_value SHA256 [R]) > ULONG_MAX := by
    have : ULONG_MAX = 2 ^ 64 - 1 := rfl
    omega
  rw [if_pos h2]
  decide

/-- In `ZXK` the value `R_hashed` is the digest modulo `PRIME_USED` only for
a digest that, read as a number, fits `unsigned long`. -/
theorem R_hashed_of_small_digest (SHA256 : List Nat → List Nat) (R : List Nat)
    (h : hexStringValue (hash_value SHA256 [R]) < 2 ^ 64) :
    strtoul (hash_value SHA256 [R]) 16 % PRIME_USED
      = hexStringValue (hash_value SHA256 [R]) % PRIME_USED := by
  rw [strtoul_hex _ (hash_value_isHexLower SHA256 [R])]
  have h2 : ¬ hexStringValue (hash_value SHA256 [R]) > ULONG_MAX := by
    have : ULONG_MAX = 2 ^ 64 - 1 := rfl
    omega
  rw [if_neg h2]

/-- When the product `M_val * R_hashed` fits `unsigned long`, `ZXK` returns
the decimal form of `((M_val * R_hashed mod P) * x) mod P`. -/
theorem ZXK_exact_of_no_overflow (SHA256 : List Nat → List Nat) (rnd : Nat) (M R : List Nat)
    (h : strtoul M 16 * (strtoul (hash_value SHA256 [R]) 16 % PRIME_USED) < 2 ^ 64) :
    ZXK SHA256 rnd M R =
      ((fmt_lu (((strtoul M 16 * (strtoul (hash_value SHA256 [R]) 16 % PRIME_USED))
          % PRIME_USED * (rnd % 9000 + 1000)) % PRIME_USED)).take 15, rnd % 9000 + 1000) := by
  unfold ZXK
  have hb : ULONG_BITS = 64 := rfl
  simp only [hb]
  rw [Nat.mod_eq_of_lt h]
  have hm : (strtoul M 16 * (strtoul (hash_value SHA256 [R]) 16 % PRIME_USED)) % PRIME_USED
      < 2147483647 := Nat.mod_lt _ (by decide)
  have hx : rnd % 9000 + 1000 < 10000 := by omega
  have h2 : (strtoul M 16 * (strtoul (hash_value SHA256 [R]) 16 % PRIME_USED)) % PRIME_USED
      * (rnd % 9000 + 1000) < 2 ^ 64 := by
    calc _ < 2147483647 * 10000 := Nat.mul_lt_mul'' hm hx
      _ < 2 ^ 64 := by norm_num
  rw [Nat.mod_eq_of_lt h2]

set_option maxRecDepth 100000 in
/-- Claim C9. For `M = "ffffffffffffffff"`, the response `getCRP` returns and
`rand() = 0` (so `x = 1000`), `ZXK` returns `Z = "1000"`, while `M` is
parsed to `2^64 - 1`, `R_hashed` is 3 and the decimal form of
`((Mv * Rh mod P) * x) mod P` in exact arithmetic is `"9000"`: the product
`M_val * R_hashed` wraps around in `unsigned long` before it is reduced. -/
theorem C9_ZXK_product_overflows :
    ZXK (fun _ => crp_digest) 0 M_sixteen_f getCRP = ([49, 48, 48, 48], 1000)
      ∧ strtoul M_sixteen_f 16 = 2 ^ 64 - 1
      ∧ strtoul (hash_value (fun _ => crp_digest) [getCRP]) 16 % PRIME_USED = 3
      ∧ fmt_lu ((((2 ^ 64 - 1) * 3) % PRIME_USED * 1000) % PRIME_USED) = [57, 48, 48, 48] := by
  decide

set_option maxRecDepth 100000 in
/-- Claim C10. For the response `getCRP` returns, whose SHA-256 digest is
`0c3d5572...7314fa78`, `hash_value` returns the 64 hexadecimal digits of the
digest, the value `R_hashed` that `ZXK` computes from them is 3, and the
unsigned integer the 64 digits denote, reduced modulo `2^31 - 1`, is
1730220263: `strtoul` returns `ULONG_MAX` for a digest that does not fit
`unsigned long`. -/
theorem C10_R_hashed_differs_from_digest_mod_P :
    (hash_value (fun _ => crp_digest) [getCRP]).length = 64
      ∧ strtoul (hash_value (fun _ => crp_digest) [getCRP]) 16 = ULONG_MAX
      ∧ strtoul (hash_value (fun _ => crp_digest) [getCRP]) 16 % PRIME_USED = 3
      ∧ hexStringValue (hash_value (fun _ => crp_digest) [getCRP]) % PRIME_USED = 1730220263 := by
  decide

/-- The value `send_message` returns is 0 or -1. -/
theorem send_message_ret (wire : List Nat) (acc1 acc2 : Int) (msgType : Nat)
    (payload : List Nat) (payload_len : Nat) :
    (send_message wire acc1 acc2 msgType payload payload_len).1 = 0
      ∨ (send_message wire acc1 acc2 msgType payload payload_len).1 = -1 := by
  unfold send_message
  simp only
  split_ifs <;> simp

/-- Whatever the digest bytes are, `hash_value` returns 64 characters. -/
theorem hash_value_length (SHA256 : List Nat → List Nat) (args : List (List Nat)) :
    (hash_value SHA256 args).length = 64 := by
  unfold hash_value
  simp [List.length_flatten, fmt_02x, Function.comp_def]

/-- The length `pack_auth_msg_response` reports is the length of its buffer. -/
theorem pack_auth_msg_response_len (HID_j COM_prime Z : List Nat) :
    (pack_auth_msg_response HID_j COM_prime Z).2 = (pack_auth_msg_response HID_j COM_prime Z).1.length := by
  have h1 := Nat.mod_lt HID_j.length (show 256 > 0 by decide)
  have h2 := Nat.mod_lt COM_prime.length (show 256 > 0 by decide)
  have h3 := Nat.mod_lt Z.length (show 256 > 0 by decide)
  have e1 := Nat.mod_le HID_j.length 256
  have e2 := Nat.mod_le COM_prime.length 256
  have e3 := Nat.mod_le Z.length 256
  simp only [pack_auth_msg_response, List.length_append, List.length_singleton, List.length_take,
    Nat.min_eq_left e1, Nat.min_eq_left e2, Nat.min_eq_left e3]
  omega

/-- The early-termination path of the loop body. -/
theorem process_auth_msg_none (SHA256 : List Nat → List Nat) (env : StepEnv) (st : Session)
    (authMsg : AuthMsgServer) (h : check_ack SHA256 st authMsg = none) :
    process_auth_msg SHA256 env st authMsg
      = ({ st with i := st.CHlen, early_exit := true }, true) := by
  unfold process_auth_msg
  rw [h]

/-- The responding path of the loop body. -/
theorem process_auth_msg_some (SHA256 : List Nat → List Nat) (env : StepEnv) (st st1 : Session)
    (authMsg : AuthMsgServer) (h : check_ack SHA256 st authMsg = some st1) :
    process_auth_msg SHA256 env st authMsg = respond SHA256 env st1 authMsg := by
  unfold process_auth_msg
  rw [h]
  unfold respond session_after_ZXK COM_prime_of
  by_cases hM : authMsg.M.length > 0
  · simp only [hM, if_true]
  · simp only [hM, if_false]

theorem round_loop_zero (SHA256 : List Nat → List Nat) (env : Nat → StepEnv) (n : Nat)
    (st : Session) : round_loop SHA256 env 0 n st = (st, false) := rfl

theorem round_loop_succ (SHA256 : List Nat → List Nat) (env : Nat → StepEnv) (fuel n : Nat)
    (st : Session) :
    round_loop SHA256 env (fuel + 1) n st =
      if st.i < st.CHlen then
        if (loop_body SHA256 (env n) st).2 = true then ((loop_body SHA256 (env n) st).1, true)
        else round_loop SHA256 env fuel (n + 1) (loop_body SHA256 (env n) st).1
      else (st, true) := by
  rw [round_loop]
  by_cases h : st.i < st.CHlen
  · simp only [h, if_true]
    rcases hb : loop_body SHA256 (env n) st with ⟨st1, b⟩
    cases b <;> simp
  · simp only [h, if_false]

/-- The loop body on a frame that is received, has type `AUTH_MSG` and
decodes. -/
theorem loop_body_decoded (SHA256 : List Nat → List Nat) (env : StepEnv) (st : Session)
    (payload : List Nat) (len : Nat) (sock1 : Sock) (authMsg : AuthMsgServer)
    (hrecv : recv_message st.sock = (some (AUTH_MSG, payload, len), sock1))
    (hdec : unpack_auth_msg_server payload = some authMsg) :
    loop_body SHA256 env st = process_auth_msg SHA256 env { st with sock := sock1 } authMsg := by
  unfold loop_body
  rw [hrecv]
  simp only [ne_eq, not_true_eq_false, if_false, hdec]

/-- The acknowledgment check ends the loop when the ACK is the expected one
and `M` has been received. -/
theorem check_ack_early (SHA256 : List Nat → List Nat) (st : Session) (authMsg : AuthMsgServer)
    (r : List Nat) (hs : st.start_auth = true) (hr : st.r_prime = some r)
    (hm : st.received_M = true) (hack : authMsg.ACK = hash_value SHA256 [r, st.ID_j, st.x_pv]) :
    check_ack SHA256 st authMsg = none := by
  unfold check_ack
  simp [hs, hr, hm, hack]

/-- Claim C15. Early termination: in a session with `start_auth` set, a previous
`r_prime` and `received_M` set, a received and decoded `AUTH_MSG` whose ACK
is `hash_value(3, r_prime, ID_j, x_pv)` ends the round loop in that
iteration, whatever iterations would remain: the loop is left with the wire
and the events as they were (no response is packed or sent) and with
`r_prime`, `Z`, `original_x` and every other variable unchanged, except that
the frame has been consumed from the socket and `i` is set to `CHlen`. -/
theorem C15_early_termination (SHA256 : List Nat → List Nat) (env : Nat → StepEnv)
    (fuel n : Nat) (st : Session) (r payload : List Nat) (len : Nat) (sock1 : Sock)
    (authMsg : AuthMsgServer)
    (hs : st.start_auth = true) (hr : st.r_prime = some r) (hm : st.received_M = true)
    (hi : st.i < st.CHlen)
    (hrecv : recv_message st.sock = (some (AUTH_MSG, payload, len), sock1))
    (hdec : unpack_auth_msg_server payload = some authMsg)
    (hack : authMsg.ACK = hash_value SHA256 [r, st.ID_j, st.x_pv]) :
    round_loop SHA256 env (fuel + 1) n st
      = ({ st with sock := sock1, i := st.CHlen, early_exit := true }, true) := by
  have hc : check_ack SHA256 { st with sock := sock1 } authMsg = none :=
    check_ack_early SHA256 { st with sock := sock1 } authMsg r hs hr hm hack
  have hb : loop_body SHA256 (env n) st
      = ({ st with sock := sock1, i := st.CHlen, early_exit := true }, true) := by
    rw [loop_body_decoded SHA256 (env n) st payload len sock1 authMsg hrecv hdec,
      process_auth_msg_none SHA256 (env n) _ authMsg hc]
  rw [round_loop_succ, if_pos hi, hb]
  simp

/-- Claim C16. Discarded frames leave the session untouched: when `recv_message`
fails, or delivers a frame whose type is not `AUTH_MSG`, or delivers an
`AUTH_MSG` whose payload does not decode, the loop body goes on to the next
iteration with `i`, `start_auth`, `received_M`, `Z`, `r_prime`,
`original_x`, the wire and the events unchanged: only the bytes read have
left the socket. -/
theorem C16_discarded_frame_no_effect (SHA256 : List Nat → List Nat) (env : StepEnv)
    (st : Session)
    (h : (recv_message st.sock).1 = none ∨
      ∃ t p l, (recv_message st.sock).1 = some (t, p, l)
        ∧ (t ≠ AUTH_MSG ∨ unpack_auth_msg_server p = none)) :
    loop_body SHA256 env st = ({ st with sock := (recv_message st.sock).2 }, false) := by
  unfold loop_body
  rcases hrm : recv_message st.sock with ⟨res, sock1⟩
  rw [hrm] at h
  simp only at h ⊢
  rcases h with h | ⟨t, p, l, h, h2⟩
  · subst h; rfl
  · subst h
    simp only
    rcases h2 with h2 | h2
    · simp [h2]
    · by_cases ht : t = AUTH_MSG
      · simp [ht, h2]
      · simp [ht]

set_option maxRecDepth 1000000 in
/-- The fixture `session_start` is the session `start_prover_init` returns
for board `"1"`. -/
theorem start_prover_init_board_1 :
    start_prover_init sha256 0 4 72 [49] [] = some (session_start []) := by
  decide

set_option maxRecDepth 1000000 in
/-- Claim C15, witness: the session of board `"1"` after its first round receives the
server message whose ACK echoes the expected hash. -/
theorem C15_early_termination_witness :
    round_loop sha256 env_full (0 + 1) 1 (session_round_1 [frame 7 (auth_msg_payload msg_ack)])
      = ({ session_round_1 [frame 7 (auth_msg_payload msg_ack)] with
            sock := [], i := (session_round_1 [frame 7 (auth_msg_payload msg_ack)]).CHlen,
            early_exit := true }, true) :=
  C15_early_termination sha256 env_full 0 1
    (session_round_1 [frame 7 (auth_msg_payload msg_ack)]) getCRP (auth_msg_payload msg_ack) 70 []
    msg_ack rfl rfl rfl (by decide) (by decide) (by decide) rfl

/-- Claim C16, witness: the session of board `"1"` on a socket that delivers the three
bytes `[1, 7, 0]` and closes. -/
theorem C16_discarded_frame_no_effect_witness :
    loop_body sha256 (env_full 0) (session_start [[1, 7, 0]])
      = ({ session_start [[1, 7, 0]] with
            sock := (recv_message (session_start [[1, 7, 0]]).sock).2 }, false) :=
  C16_discarded_frame_no_effect sha256 (env_full 0) (session_start [[1, 7, 0]])
    (Or.inl (by decide))

/-- What the checks of lines 354-380 leave unchanged when the loop goes on. -/
theorem check_ack_fields (SHA256 : List Nat → List Nat) (st st1 : Session)
    (authMsg : AuthMsgServer) (h : check_ack SHA256 st authMsg = some st1) :
    st1.ID_j = st.ID_j ∧ st1.HID_j = st.HID_j ∧ st1.CHlen = st.CHlen ∧ st1.x_p_str = st.x_p_str
      ∧ st1.x_pv = st.x_pv ∧ st1.i = st.i ∧ st1.M = st.M ∧ st1.original_x = st.original_x
      ∧ st1.r_prime = st.r_prime ∧ st1.sock = st.sock ∧ st1.wire = st.wire
      ∧ st1.trace = st.trace ∧ st1.early_exit = st.early_exit
      ∧ (st1.Z = st.Z ∨ st1.Z = []) := by
  unfold check_ack at h
  by_cases hs : st.start_auth = true
  · simp only [hs, Bool.not_true, Bool.false_eq_true, if_false] at h
    cases hr : st.r_prime with
    | none =>
      rw [hr] at h
      simp only [Option.some.injEq] at h
      subst h
      simp [hr]
    | some r =>
      rw [hr] at h
      simp only at h
      split_ifs at h
      · simp only [Option.some.injEq] at h
        subst h
        simp [hr]
      · simp only [Option.some.injEq] at h
        subst h
        simp [hr]
  · simp only [hs, Bool.not_false, if_true] at h
    split_ifs at h
    · simp only [Option.some.injEq] at h
      subst h
      simp
    · simp only [Option.some.injEq] at h
      subst h
      simp

/-- Before the start, the checks only look for the ACK `"FF"`. -/
theorem check_ack_pre_start (SHA256 : List Nat → List Nat) (st : Session)
    (authMsg : AuthMsgServer) (hs : st.start_auth = false) :
    check_ack SHA256 st authMsg
      = some (if authMsg.ACK = [70, 70] then { st with start_auth := true } else st) := by
  unfold check_ack
  simp only [hs, Bool.not_false, if_true]
  split_ifs <;> rfl

/-- What lines 384-401 leave unchanged. -/
theorem session_after_ZXK_fields (SHA256 : List Nat → List Nat) (env : StepEnv) (st1 : Session)
    (authMsg : AuthMsgServer) :
    (session_after_ZXK SHA256 env st1 authMsg).ID_j = st1.ID_j
      ∧ (session_after_ZXK SHA256 env st1 authMsg).HID_j = st1.HID_j
      ∧ (session_after_ZXK SHA256 env st1 authMsg).CHlen = st1.CHlen
      ∧ (session_after_ZXK SHA256 env st1 authMsg).x_p_str = st1.x_p_str
      ∧ (session_after_ZXK SHA256 env st1 authMsg).x_pv = st1.x_pv
      ∧ (session_after_ZXK SHA256 env st1 authMsg).i = st1.i
      ∧ (session_after_ZXK SHA256 env st1 authMsg).M = st1.M
      ∧ (session_after_ZXK SHA256 env st1 authMsg).start_auth = st1.start_auth
      ∧ (session_after_ZXK SHA256 env st1 authMsg).sock = st1.sock
      ∧ (session_after_ZXK SHA256 env st1 authMsg).wire = st1.wire
      ∧ (session_after_ZXK SHA256 env st1 authMsg).trace = st1.trace
      ∧ (session_after_ZXK SHA256 env st1 authMsg).early_exit = st1.early_exit := by
  unfold session_after_ZXK
  split_ifs <;> simp

/-- What the responding path leaves unchanged, how it moves `i` and what it
adds to the events. -/
theorem respond_fields (SHA256 : List Nat → List Nat) (env : StepEnv) (st1 : Session)
    (authMsg : AuthMsgServer) :
    (respond SHA256 env st1 authMsg).1.ID_j = st1.ID_j
      ∧ (respond SHA256 env st1 authMsg).1.HID_j = st1.HID_j
      ∧ (respond SHA256 env st1 authMsg).1.CHlen = st1.CHlen
      ∧ (respond SHA256 env st1 authMsg).1.x_p_str = st1.x_p_str
      ∧ (respond SHA256 env st1 authMsg).1.x_pv = st1.x_pv
      ∧ (respond SHA256 env st1 authMsg).1.M = st1.M
      ∧ (respond SHA256 env st1 authMsg).1.start_auth = st1.start_auth
      ∧ (respond SHA256 env st1 authMsg).1.sock = st1.sock
      ∧ (respond SHA256 env st1 authMsg).1.early_exit = st1.early_exit
      ∧ (respond SHA256 env st1 authMsg).1.i
          = st1.i + (if (respond SHA256 env st1 authMsg).2 = true then 0 else 1)
      ∧ (respond SHA256 env st1 authMsg).1.Z = (session_after_ZXK SHA256 env st1 authMsg).Z
      ∧ (respond SHA256 env st1 authMsg).1.trace = st1.trace ++
          [Event.pack_response st1.HID_j (COM_prime_of SHA256 st1 authMsg)
              (session_after_ZXK SHA256 env st1 authMsg).Z,
           Event.sent AUTH_MSG
              (pack_auth_msg_response st1.HID_j (COM_prime_of SHA256 st1 authMsg)
                (session_after_ZXK SHA256 env st1 authMsg).Z).1
              (pack_auth_msg_response st1.HID_j (COM_prime_of SHA256 st1 authMsg)
                (session_after_ZXK SHA256 env st1 authMsg).Z).2
              (if (respond SHA256 env st1 authMsg).2 = true then -1 else 0)] := by
  obtain ⟨f1, f2, f3, f4, f5, f6, f7, f8, f9, f10, f11, f12⟩ :=
    session_after_ZXK_fields SHA256 env st1 authMsg
  unfold respond
  simp only [f2, f10]
  rcases send_message_ret st1.wire env.acc1 env.acc2 AUTH_MSG
      (pack_auth_msg_response st1.HID_j (COM_prime_of SHA256 st1 authMsg)
        (session_after_ZXK SHA256 env st1 authMsg).Z).1
      (pack_auth_msg_response st1.HID_j (COM_prime_of SHA256 st1 authMsg)
        (session_after_ZXK SHA256 env st1 authMsg).Z).2 with h | h
  · simp [h, f1, f2, f3, f4, f5, f6, f7, f8, f9, f11, f12]
  · simp [h, f1, f2, f3, f4, f5, f6, f7, f8, f9, f11, f12]

/-- The responding path does not break when both `send` calls take all the
bytes of the response, which are at most 768. -/
theorem respond_full (SHA256 : List Nat → List Nat) (env : StepEnv) (st1 : Session)
    (authMsg : AuthMsgServer) (h1 : 4 ≤ env.acc1) (h2 : 768 ≤ env.acc2) :
    (respond SHA256 env st1 authMsg).2 = false := by
  obtain ⟨-, f2, -, -, -, -, -, -, -, f10, -, -⟩ :=
    session_after_ZXK_fields SHA256 env st1 authMsg
  unfold respond
  simp only [f2, f10]
  generalize (session_after_ZXK SHA256 env st1 authMsg).Z = Z
  generalize COM_prime_of SHA256 st1 authMsg = C
  have hl := pack_auth_msg_response_len st1.HID_j C Z
  have hbound : (pack_auth_msg_response st1.HID_j C Z).2 ≤ 768 := by
    have a1 := Nat.mod_lt st1.HID_j.length (show 256 > 0 by decide)
    have a2 := Nat.mod_lt C.length (show 256 > 0 by decide)
    have a3 := Nat.mod_lt Z.length (show 256 > 0 by decide)
    simp only [pack_auth_msg_response]
    omega
  have hsend := send_message_full st1.wire env.acc1 env.acc2 AUTH_MSG
    (pack_auth_msg_response st1.HID_j C Z).1 (by decide) (by rw [← hl]; omega) h1
    (by rw [← hl]; omega)
  rw [hl, hsend]
  simp

set_option maxRecDepth 1000000 in
/-- Claim C17, counterexample: in the session of board `"1"` at the start of the loop
(`start_auth` false, `i = 0`), processing a decoded `AUTH_MSG` leaves the
loop running with `i = 1`, both for the ACK `"FF"` and for the ACK `"00"`. -/
theorem C17_pre_start_frame_counterexample :
    (session_start []).start_auth = false ∧ (session_start []).i = 0
      ∧ (process_auth_msg sha256 (env_full 0) (session_start []) msg_start).2 = false
      ∧ (process_auth_msg sha256 (env_full 0) (session_start []) msg_start).1.i = 1
      ∧ (process_auth_msg sha256 (env_full 0) (session_start [])
          { msg_start with ACK := [48, 48] }).2 = false
      ∧ (process_auth_msg sha256 (env_full 0) (session_start [])
          { msg_start with ACK := [48, 48] }).1.i = 1 := by
  decide

/-- Claim C17, as amended. In a session with `start_auth` false, processing a decoded
`AUTH_MSG` sets `start_auth` exactly when the ACK is `"FF"` and then, as for
every processed frame, packs and sends a response: when `send_message`
succeeds the loop goes on with `i` increased by one, so the frame consumes
one of the `CHlen` rounds; `i` is unchanged only when the send fails and the
loop is left.  The send succeeds when both `send` calls take all bytes. -/
theorem C17_pre_start_frame_consumes_round (SHA256 : List Nat → List Nat) (env : StepEnv)
    (st : Session) (authMsg : AuthMsgServer) (hs : st.start_auth = false) :
    ((process_auth_msg SHA256 env st authMsg).1.start_auth = true ↔ authMsg.ACK = [70, 70])
      ∧ ((process_auth_msg SHA256 env st authMsg).2 = false →
          (process_auth_msg SHA256 env st authMsg).1.i = st.i + 1)
      ∧ ((process_auth_msg SHA256 env st authMsg).2 = true →
          (process_auth_msg SHA256 env st authMsg).1.i = st.i)
      ∧ (4 ≤ env.acc1 → 768 ≤ env.acc2 →
          (process_auth_msg SHA256 env st authMsg).2 = false) := by
  have hc := check_ack_pre_start SHA256 st authMsg hs
  rw [process_auth_msg_some SHA256 env st _ authMsg hc]
  obtain ⟨-, -, -, -, -, -, f7, -, -, f10, -, -⟩ := respond_fields SHA256 env
    (if authMsg.ACK = [70, 70] then { st with start_auth := true } else st) authMsg
  have hi : (if authMsg.ACK = [70, 70] then { st with start_auth := true } else st).i = st.i := by
    split_ifs <;> rfl
  refine ⟨?_, ?_, ?_, ?_⟩
  · rw [f7]
    by_cases ha : authMsg.ACK = [70, 70]
    · simp [ha]
    · simp [ha, hs]
  · intro hb
    rw [f10, hi, hb]
    simp
  · intro hb
    rw [f10, hi, hb]
    simp
  · intro h1 h2
    exact respond_full SHA256 env _ authMsg h1 h2

/-- Claim C17, witness: the session of board `"1"` at the start of the loop and the
first server message. -/
theorem C17_pre_start_frame_consumes_round_witness :
    ((process_auth_msg sha256 (env_full 0) (session_start []) msg_start).1.start_auth = true
        ↔ msg_start.ACK = [70, 70])
      ∧ ((process_auth_msg sha256 (env_full 0) (session_start []) msg_start).2 = false →
          (process_auth_msg sha256 (env_full 0) (session_start []) msg_start).1.i
            = (session_start []).i + 1)
      ∧ ((process_auth_msg sha256 (env_full 0) (session_start []) msg_start).2 = true →
          (process_auth_msg sha256 (env_full 0) (session_start []) msg_start).1.i
            = (session_start []).i)
      ∧ (4 ≤ (env_full 0).acc1 → 768 ≤ (env_full 0).acc2 →
          (process_auth_msg sha256 (env_full 0) (session_start []) msg_start).2 = false) :=
  C17_pre_start_frame_consumes_round sha256 (env_full 0) (session_start []) msg_start rfl

/-- The loop body either discards what it received, leaving everything but
the socket as it was, or processes a decoded `AUTH_MSG`. -/
theorem loop_body_cases (SHA256 : List Nat → List Nat) (env : StepEnv) (st : Session) :
    loop_body SHA256 env st = ({ st with sock := (recv_message st.sock).2 }, false)
      ∨ ∃ authMsg, loop_body SHA256 env st
          = process_auth_msg SHA256 env { st with sock := (recv_message st.sock).2 } authMsg := by
  unfold loop_body
  rcases hrm : recv_message st.sock with ⟨res, sock1⟩
  cases res with
  | none => left; rfl
  | some f =>
    obtain ⟨t, p, l⟩ := f
    simp only
    by_cases ht : t = AUTH_MSG
    · cases hu : unpack_auth_msg_server p with
      | none => left; simp [ht]
      | some authMsg => right; exact ⟨authMsg, by simp [ht]⟩
    · left; simp [ht]

/-- The responding path adds one to the number of responses sent exactly
when it does not break. -/
theorem respond_responses_sent (SHA256 : List Nat → List Nat) (env : StepEnv) (st1 : Session)
    (authMsg : AuthMsgServer) :
    responses_sent (respond SHA256 env st1 authMsg).1
      = responses_sent st1 + (if (respond SHA256 env st1 authMsg).2 = true then 0 else 1) := by
  obtain ⟨-, -, -, -, -, -, -, -, -, -, -, f12⟩ := respond_fields SHA256 env st1 authMsg
  unfold responses_sent
  rw [f12, List.countP_append]
  by_cases hb : (respond SHA256 env st1 authMsg).2 = true
  · simp [hb, List.countP_cons, isResponseSent]
  · simp [hb, List.countP_cons, isResponseSent]

/-- The invariant of the round loop: at most `CHlen` responses have been
sent, and `i` counts them unless the loop was left by early termination. -/
theorem loop_body_inv (SHA256 : List Nat → List Nat) (env : StepEnv) (st : Session)
    (hi : st.i < st.CHlen) (hc : responses_sent st ≤ st.CHlen) (he : st.early_exit = false)
    (hn : st.i = responses_sent st) :
    (loop_body SHA256 env st).1.CHlen = st.CHlen
      ∧ responses_sent (loop_body SHA256 env st).1 ≤ st.CHlen
      ∧ ((loop_body SHA256 env st).1.early_exit = false →
          (loop_body SHA256 env st).1.i = responses_sent (loop_body SHA256 env st).1)
      ∧ ((loop_body SHA256 env st).1.early_exit = true →
          (loop_body SHA256 env st).1.i = st.CHlen ∧ (loop_body SHA256 env st).2 = true)
      ∧ ((loop_body SHA256 env st).2 = false → (loop_body SHA256 env st).1.early_exit = false) := by
  rcases loop_body_cases SHA256 env st with h | ⟨authMsg, h⟩
  · rw [h]
    simp only [responses_sent] at hc hn ⊢
    refine ⟨by trivial, hc, fun _ => hn, ?_, fun _ => he⟩
    intro h2
    rw [he] at h2
    exact absurd h2 (by simp)
  · rw [h]
    cases hca : check_ack SHA256 { st with sock := (recv_message st.sock).2 } authMsg with
    | none =>
      rw [process_auth_msg_none SHA256 env _ authMsg hca]
      simp only [responses_sent] at hc hn ⊢
      refine ⟨by trivial, hc, ?_, fun _ => ⟨by trivial, by trivial⟩, ?_⟩
      · intro h2; exact absurd h2 (by simp)
      · intro h2; exact absurd h2 (by simp)
    | some st1 =>
      rw [process_auth_msg_some SHA256 env _ st1 authMsg hca]
      obtain ⟨-, -, c3, -, -, c6, -, -, -, -, -, c12, c13, -⟩ :=
        check_ack_fields SHA256 _ st1 authMsg hca
      simp only at c3 c6 c12 c13
      obtain ⟨-, -, f3, -, -, -, -, -, f9, f10, -, -⟩ := respond_fields SHA256 env st1 authMsg
      have hr := respond_responses_sent SHA256 env st1 authMsg
      have hs1 : responses_sent st1 = responses_sent st := by
        unfold responses_sent; rw [c12]
      rw [hs1] at hr
      rw [f3, c3, f9, c13, hr, f10, c6]
      refine ⟨rfl, ?_, ?_, ?_, fun _ => he⟩
      · split_ifs <;> omega
      · intro _; omega
      · intro h2; rw [he] at h2; exact absurd h2 (by simp)

/-- The invariant holds after any number of iterations of the round loop. -/
theorem round_loop_inv (SHA256 : List Nat → List Nat) (env : Nat → StepEnv) (fuel : Nat) :
    ∀ (n : Nat) (st : Session), responses_sent st ≤ st.CHlen → st.early_exit = false →
      st.i = responses_sent st →
      (round_loop SHA256 env fuel n st).1.CHlen = st.CHlen
        ∧ responses_sent (round_loop SHA256 env fuel n st).1 ≤ st.CHlen
        ∧ ((round_loop SHA256 env fuel n st).1.early_exit = false →
            (round_loop SHA256 env fuel n st).1.i
              = responses_sent (round_loop SHA256 env fuel n st).1)
        ∧ ((round_loop SHA256 env fuel n st).1.early_exit = true →
            (round_loop SHA256 env fuel n st).1.i = st.CHlen
              ∧ (round_loop SHA256 env fuel n st).2 = true) := by
  induction fuel with
  | zero =>
    intro n st hc he hn
    rw [round_loop_zero]
    refine ⟨rfl, hc, fun _ => hn, ?_⟩
    intro h2; rw [he] at h2; exact absurd h2 (by simp)
  | succ fuel ih =>
    intro n st hc he hn
    rw [round_loop_succ]
    by_cases hi : st.i < st.CHlen
    · rw [if_pos hi]
      obtain ⟨b1, b2, b3, b4, b5⟩ := loop_body_inv SHA256 (env n) st hi hc he hn
      by_cases hb : (loop_body SHA256 (env n) st).2 = true
      · rw [if_pos hb]
        exact ⟨b1, b2, b3, fun h => ⟨(b4 h).1, rfl⟩⟩
      · rw [if_neg hb]
        have hb2 : (loop_body SHA256 (env n) st).2 = false := by
          cases hx : (loop_body SHA256 (env n) st).2
          · rfl
          · exact absurd hx hb
        have he1 := b5 hb2
        obtain ⟨r1, r2, r3, r4⟩ := ih (n + 1) (loop_body SHA256 (env n) st).1
          (by rw [b1]; exact b2) he1 (b3 he1)
        rw [b1] at r1 r2 r4
        exact ⟨r1, r2, r3, r4⟩
    · rw [if_neg hi]
      refine ⟨rfl, hc, fun _ => hn, ?_⟩
      intro h2; rw [he] at h2; exact absurd h2 (by simp)

/-- The session `start_prover_init` returns. -/
theorem start_prover_init_some (SHA256 : List Nat → List Nat) (rand0 : Nat) (acc1 acc2 : Int)
    (board : List Nat) (sock : Sock) (st0 : Session)
    (h : start_prover_init SHA256 rand0 acc1 acc2 board sock = some st0) :
    st0.ID_j = ([77, 68, 95] ++ board).take 63
      ∧ st0.HID_j = hash_value SHA256 [st0.ID_j]
      ∧ st0.CHlen = 5
      ∧ st0.x_p_str = (fmt_d (((rand0 % 9000 : Nat) : Int) + 1000)).take 15
      ∧ st0.x_pv = hash_value SHA256 [st0.x_p_str, st0.ID_j]
      ∧ st0.i = 0 ∧ st0.M = [] ∧ st0.Z = [] ∧ st0.early_exit = false
      ∧ st0.start_auth = false ∧ st0.sock = sock
      ∧ ∃ ret, st0.trace = [Event.pack_request st0.HID_j 5 st0.x_p_str,
          Event.sent AUTH_REQUEST (pack_auth_request st0.HID_j 5 st0.x_p_str).1
            (pack_auth_request st0.HID_j 5 st0.x_p_str).2 ret] := by
  unfold start_prover_init at h
  simp only at h
  split_ifs at h
  simp only [Option.some.injEq] at h
  subst h
  simp

set_option maxRecDepth 1000000 in
/-- Claim C18, counterexample: board `"1"`, a server that sends the start message with
`M = "1"` and then a message whose ACK echoes the expected hash.  The second
message ends the loop early: one `AUTH_MSG` response has been sent and the
round index is 5. -/
theorem C18_round_index_counterexample :
    (start_prover sha256 0 4 72 env_full 10 [49]
        [frame AUTH_MSG (auth_msg_payload msg_start),
         frame AUTH_MSG (auth_msg_payload msg_ack)]).2.map
      (fun st => (st.i, responses_sent st, st.early_exit)) = some (5, 1, true) := by
  decide

/-- Claim C18, as amended. A decoded `AUTH_MSG` that does not trigger early termination
and whose response is sent increases `i` and the number of responses sent by
one each, whatever the ACK check did.  Consequently, after any number of
iterations of the round loop, the round index equals the number of
`AUTH_MSG` responses sent so far unless the loop was left by early
termination, which sets `i` to `CHlen = 5` without sending; and at most 5
responses are sent. -/
theorem C18_round_budget (SHA256 : List Nat → List Nat) (rand0 : Nat) (acc1 acc2 : Int)
    (env : Nat → StepEnv) (fuel : Nat) (board : List Nat) (sock : Sock) (st0 : Session)
    (h0 : start_prover_init SHA256 rand0 acc1 acc2 board sock = some st0) :
    (∀ (e : StepEnv) (st : Session) (authMsg : AuthMsgServer),
        check_ack SHA256 st authMsg ≠ none →
        (process_auth_msg SHA256 e st authMsg).2 = false →
        (process_auth_msg SHA256 e st authMsg).1.i = st.i + 1
          ∧ responses_sent (process_auth_msg SHA256 e st authMsg).1 = responses_sent st + 1)
      ∧ responses_sent (round_loop SHA256 env fuel 0 st0).1 ≤ 5
      ∧ ((round_loop SHA256 env fuel 0 st0).1.early_exit = false →
          (round_loop SHA256 env fuel 0 st0).1.i
            = responses_sent (round_loop SHA256 env fuel 0 st0).1)
      ∧ ((round_loop SHA256 env fuel 0 st0).1.early_exit = true →
          (round_loop SHA256 env fuel 0 st0).1.i = 5) := by
  constructor
  · intro e st authMsg hne hb
    cases hca : check_ack SHA256 st authMsg with
    | none => exact absurd hca hne
    | some st1 =>
      rw [process_auth_msg_some SHA256 e st st1 authMsg hca] at hb ⊢
      obtain ⟨-, -, -, -, -, c6, -, -, -, -, -, c12, -, -⟩ :=
        check_ack_fields SHA256 st st1 authMsg hca
      obtain ⟨-, -, -, -, -, -, -, -, -, f10, -, -⟩ := respond_fields SHA256 e st1 authMsg
      have hr := respond_responses_sent SHA256 e st1 authMsg
      have hs1 : responses_sent st1 = responses_sent st := by
        unfold responses_sent; rw [c12]
      rw [f10, hr, hs1, c6, hb]
      simp
  · obtain ⟨-, -, i3, -, -, i6, -, -, i9, -, -, ret, i12⟩ :=
      start_prover_init_some SHA256 rand0 acc1 acc2 board sock st0 h0
    have hz : responses_sent st0 = 0 := by
      unfold responses_sent
      rw [i12]
      simp [List.countP_cons, isResponseSent, AUTH_REQUEST, AUTH_MSG]
    obtain ⟨r1, r2, r3, r4⟩ := round_loop_inv SHA256 env fuel 0 st0
      (by rw [hz]; omega) i9 (by rw [hz, i6])
    rw [i3] at r2 r4
    exact ⟨r2, r3, fun h => (r4 h).1⟩

/-- Claim C18, witness: the session of board `"1"` on a socket that delivers nothing. -/
theorem C18_round_budget_witness :
    (∀ (e : StepEnv) (st : Session) (authMsg : AuthMsgServer),
        check_ack sha256 st authMsg ≠ none →
        (process_auth_msg sha256 e st authMsg).2 = false →
        (process_auth_msg sha256 e st authMsg).1.i = st.i + 1
          ∧ responses_sent (process_auth_msg sha256 e st authMsg).1 = responses_sent st + 1)
      ∧ responses_sent (round_loop sha256 env_full 3 0 (session_start [])).1 ≤ 5
      ∧ ((round_loop sha256 env_full 3 0 (session_start [])).1.early_exit = false →
          (round_loop sha256 env_full 3 0 (session_start [])).1.i
            = responses_sent (round_loop sha256 env_full 3 0 (session_start [])).1)
      ∧ ((round_loop sha256 env_full 3 0 (session_start [])).1.early_exit = true →
          (round_loop sha256 env_full 3 0 (session_start [])).1.i = 5) :=
  C18_round_budget sha256 0 4 72 env_full 3 [49] [] (session_start [])
    start_prover_init_board_1

/-- What the loop body leaves unchanged in every case. -/
theorem loop_body_fields (SHA256 : List Nat → List Nat) (env : StepEnv) (st : Session) :
    (loop_body SHA256 env st).1.ID_j = st.ID_j ∧ (loop_body SHA256 env st).1.HID_j = st.HID_j
      ∧ (loop_body SHA256 env st).1.x_p_str = st.x_p_str
      ∧ (loop_body SHA256 env st).1.x_pv = st.x_pv ∧ (loop_body SHA256 env st).1.M = st.M := by
  rcases loop_body_cases SHA256 env st with h | ⟨authMsg, h⟩
  · rw [h]; simp
  · rw [h]
    cases hca : check_ack SHA256 { st with sock := (recv_message st.sock).2 } authMsg with
    | none =>
      rw [process_auth_msg_none SHA256 env _ authMsg hca]
      simp
    | some st1 =>
      rw [process_auth_msg_some SHA256 env _ st1 authMsg hca]
      obtain ⟨c1, c2, -, c4, c5, -, c7, -⟩ := check_ack_fields SHA256 _ st1 authMsg hca
      obtain ⟨f1, f2, -, f4, f5, f6, -⟩ := respond_fields SHA256 env st1 authMsg
      simp only at c1 c2 c4 c5 c7
      rw [f1, f2, f4, f5, f6, c1, c2, c4, c5, c7]
      simp

/-- The round loop never assigns `ID_j`, `HID_j`, `x_p_str`, `x_pv` or `M`. -/
theorem round_loop_fields (SHA256 : List Nat → List Nat) (env : Nat → StepEnv) (fuel : Nat) :
    ∀ (n : Nat) (st : Session),
      (round_loop SHA256 env fuel n st).1.ID_j = st.ID_j
        ∧ (round_loop SHA256 env fuel n st).1.HID_j = st.HID_j
        ∧ (round_loop SHA256 env fuel n st).1.x_p_str = st.x_p_str
        ∧ (round_loop SHA256 env fuel n st).1.x_pv = st.x_pv
        ∧ (round_loop SHA256 env fuel n st).1.M = st.M := by
  induction fuel with
  | zero => intro n st; rw [round_loop_zero]; simp
  | succ fuel ih =>
    intro n st
    rw [round_loop_succ]
    obtain ⟨b1, b2, b3, b4, b5⟩ := loop_body_fields SHA256 (env n) st
    split_ifs
    · exact ⟨b1, b2, b3, b4, b5⟩
    · obtain ⟨r1, r2, r3, r4, r5⟩ := ih (n + 1) (loop_body SHA256 (env n) st).1
      exact ⟨r1.trans b1, r2.trans b2, r3.trans b3, r4.trans b4, r5.trans b5⟩
    · simp

/-- An empty last argument does not change what `hash_value` hashes. -/
theorem hash_value_nil_right (SHA256 : List Nat → List Nat) (a : List Nat) :
    hash_value SHA256 [a, []] = hash_value SHA256 [a] := by
  simp [hash_value]

/-- In every session the variable `M` is still the empty string when the
received MTL is compared, so `Original_MTL` is the hash of the decimal form
of `original_x` alone, whatever `M` the server supplied. -/
theorem Original_MTL_ignores_M (SHA256 : List Nat → List Nat) (rand0 : Nat) (acc1 acc2 : Int)
    (env : Nat → StepEnv) (fuel : Nat) (board : List Nat) (sock : Sock) (st0 : Session)
    (h0 : start_prover_init SHA256 rand0 acc1 acc2 board sock = some st0) :
    (round_loop SHA256 env fuel 0 st0).1.M = []
      ∧ Original_MTL SHA256 (round_loop SHA256 env fuel 0 st0).1
          = hash_value SHA256 [int_to_str (round_loop SHA256 env fuel 0 st0).1.original_x] := by
  obtain ⟨-, -, -, -, -, -, i7, -⟩ :=
    start_prover_init_some SHA256 rand0 acc1 acc2 board sock st0 h0
  obtain ⟨-, -, -, -, r5⟩ := round_loop_fields SHA256 env fuel 0 st0
  rw [i7] at r5
  refine ⟨r5, ?_⟩
  unfold Original_MTL
  rw [r5, hash_value_nil_right]

set_option maxRecDepth 1000000 in
/-- Claim C13. Board `"1"`, `x = 1000`; the server supplies `M = "1"` in the start
message, acknowledges the response, and sends `AUTH_DONE` with
`MTL = hash_value(2, "1000", "1")`, the hash of the decimal form of `x` and
the `M` it supplied.  The program compares that MTL with `hash_value(2,
"1000", "")`, because its variable `M` is never assigned, and reports a
mismatch. -/
theorem C13_MTL_of_supplied_M_mismatch :
    (start_prover sha256 0 4 72 env_full 10 [49]
        [frame AUTH_MSG (auth_msg_payload msg_start),
         frame AUTH_MSG (auth_msg_payload msg_ack), frame_done]).1 = Verdict.mismatch
      ∧ (start_prover sha256 0 4 72 env_full 10 [49]
        [frame AUTH_MSG (auth_msg_payload msg_start),
         frame AUTH_MSG (auth_msg_payload msg_ack), frame_done]).2.map
          (fun st => (st.original_x, st.M, st.received_M)) = some (1000, [], true) := by
  decide

set_option maxRecDepth 1000000 in
/-- Claim C19. A final `AUTH_DONE` frame whose payload is truncated (it declares an
MTL of 5 bytes and holds 1, or it is empty) makes `unpack_auth_done` return
`NULL`, and the final step passes that `NULL` on to `printf` and `strcmp`:
there is no test of the result. -/
theorem C19_truncated_auth_done_used :
    unpack_auth_done [5, 97] = none
      ∧ final_step sha256 (session_round_1 [frame AUTH_DONE [5, 97]]) = Verdict.null_mtl_used
      ∧ unpack_auth_done [] = none
      ∧ final_step sha256 (session_round_1 [frame AUTH_DONE []]) = Verdict.null_mtl_used := by
  decide

set_option maxRecDepth 1000000 in
/-- Claim C12, counterexample: for a board of 61 characters `'a'` the identity is the
first 63 characters of `"MD_" ++ board`, which is not `"MD_" ++ board`. -/
theorem C12_identity_truncated_counterexample :
    (start_prover_init sha256 0 4 72 (List.replicate 61 97) []).map (fun st => st.ID_j)
        = some ([77, 68, 95] ++ List.replicate 60 97)
      ∧ ([77, 68, 95] ++ List.replicate 60 97 : List Nat)
        ≠ [77, 68, 95] ++ List.replicate 61 97 := by
  decide

/-- Claim C12, as amended. The session identity is `"MD_"` followed by the board string,
cut to the 63 characters that fit `ID_j[64]`: it is `"MD_"` followed by the
whole board string exactly for boards of at most 60 characters.  `HID_j` is
the hash of that identity. -/
theorem C12_identity_derivation (SHA256 : List Nat → List Nat) (rand0 : Nat) (acc1 acc2 : Int)
    (board : List Nat) (sock : Sock) (st0 : Session)
    (h0 : start_prover_init SHA256 rand0 acc1 acc2 board sock = some st0) :
    st0.ID_j = ([77, 68, 95] ++ board).take 63
      ∧ (board.length ≤ 60 → st0.ID_j = [77, 68, 95] ++ board)
      ∧ (60 < board.length → st0.ID_j ≠ [77, 68, 95] ++ board)
      ∧ st0.HID_j = hash_value SHA256 [st0.ID_j] := by
  obtain ⟨i1, i2, -⟩ := start_prover_init_some SHA256 rand0 acc1 acc2 board sock st0 h0
  refine ⟨i1, ?_, ?_, i2⟩
  · intro hb
    rw [i1]
    exact List.take_of_length_le (by simp; omega)
  · intro hb heq
    have hl := congrArg List.length heq
    rw [i1] at hl
    simp only [List.length_take, List.length_append, List.length_cons, List.length_nil] at hl
    omega

/-- Claim C12, witness: board `"1"`. -/
theorem C12_identity_derivation_witness :
    (session_start []).ID_j = ([77, 68, 95] ++ [49]).take 63
      ∧ (([49] : List Nat).length ≤ 60 → (session_start []).ID_j = [77, 68, 95] ++ [49])
      ∧ (60 < ([49] : List Nat).length → (session_start []).ID_j ≠ [77, 68, 95] ++ [49])
      ∧ (session_start []).HID_j = hash_value sha256 [(session_start []).ID_j] :=
  C12_identity_derivation sha256 0 4 72 [49] [] (session_start []) start_prover_init_board_1

theorem error_correction_loop_zero (error_code : List Nat) (resp_len i : Nat)
    (corrected : List Nat) :
    error_correction_loop error_code resp_len 0 i corrected = corrected := rfl

theorem error_correction_loop_succ (error_code : List Nat) (resp_len fuel i : Nat)
    (corrected : List Nat) :
    error_correction_loop error_code resp_len (fuel + 1) i corrected =
      if i < error_code.length then
        error_correction_loop error_code resp_len fuel (i + 2)
          (if (i / 2) * 4 + 3 < resp_len then
            if fmt_02d (Int.tmod ([0, 1, 2, 3].map
                (fun j => ((corrected.getD ((i / 2) * 4 + j) 0 : Nat) : Int) - 48)).sum 4)
                ≠ (error_code.drop i).take 2 then
              corrected.set ((i / 2) * 4) (if corrected.getD ((i / 2) * 4) 0 = 48 then 49 else 48)
            else corrected
          else corrected)
      else corrected := by
  rw [error_correction_loop]

/-- In a binary response the sum the loop computes over a window that lies
inside the response is the number of `'1'` characters of the window. -/
theorem window_sum_eq (response : List Nat) (k : Nat)
    (hbin : ∀ c ∈ response, c = 48 ∨ c = 49) (hk : k * 4 + 3 < response.length) :
    ([0, 1, 2, 3].map (fun j => ((response.getD (k * 4 + j) 0 : Nat) : Int) - 48)).sum
      = ((windowBitSum response k : Nat) : Int) := by
  have h0 : k * 4 + 0 < response.length := by omega
  have h1 : k * 4 + 1 < response.length := by omega
  have h2 : k * 4 + 2 < response.length := by omega
  have g0 := List.getD_eq_getElem response 0 h0
  have g1 := List.getD_eq_getElem response 0 h1
  have g2 := List.getD_eq_getElem response 0 h2
  have g3 := List.getD_eq_getElem response 0 hk
  have b0 := hbin _ (List.getElem_mem h0)
  have b1 := hbin _ (List.getElem_mem h1)
  have b2 := hbin _ (List.getElem_mem h2)
  have b3 := hbin _ (List.getElem_mem hk)
  have hd : (response.drop (4 * k)).take 4
      = [response[k * 4 + 0], response[k * 4 + 1], response[k * 4 + 2], response[k * 4 + 3]] := by
    have e : 4 * k = k * 4 + 0 := by omega
    rw [e, List.drop_eq_getElem_cons h0, List.drop_eq_getElem_cons (by omega : k * 4 + 0 + 1 < _),
      List.drop_eq_getElem_cons (by omega : k * 4 + 0 + 1 + 1 < _),
      List.drop_eq_getElem_cons (by omega : k * 4 + 0 + 1 + 1 + 1 < _)]
    rfl
  unfold windowBitSum
  rw [hd]
  simp only [List.map_cons, List.map_nil, List.sum_cons, List.sum_nil, g0, g1, g2, g3]
  push_cast
  omega

theorem fmt_02d_small (m : Nat) (hm : m < 10) : fmt_02d (m : Int) = twoDigits m := by
  unfold fmt_02d twoDigits
  have h1 : ¬ ((m : Int) < 0) := by omega
  have h2 : (m : Int) < 10 := by omega
  rw [if_neg h1, if_pos h2]
  have e1 : m / 10 % 10 = 0 := by omega
  have e2 : m % 10 = m := by omega
  simp [e1, e2]

/-- On parity-consistent input no iteration of the loop changes the buffer. -/
theorem error_correction_loop_noop (response error_code : List Nat)
    (hbin : ∀ c ∈ response, c = 48 ∨ c = 49)
    (hpar : ∀ k, 2 * k < error_code.length → 4 * k + 3 < response.length →
      (error_code.drop (2 * k)).take 2 = twoDigits (windowBitSum response k % 4))
    (fuel : Nat) : ∀ k,
    error_correction_loop error_code response.length fuel (2 * k) response = response := by
  induction fuel with
  | zero => intro k; rfl
  | succ fuel ih =>
    intro k
    rw [error_correction_loop_succ]
    have hdiv : 2 * k / 2 = k := by omega
    rw [hdiv]
    by_cases hi : 2 * k < error_code.length
    · rw [if_pos hi]
      have hnext : 2 * k + 2 = 2 * (k + 1) := by omega
      by_cases hw : k * 4 + 3 < response.length
      · rw [if_pos hw, window_sum_eq response k hbin hw]
        have hp := hpar k hi (by omega)
        have ht : Int.tmod ((windowBitSum response k : Nat) : Int) 4
            = ((windowBitSum response k % 4 : Nat) : Int) := by
          rw [Int.tmod_eq_emod (by positivity) (by norm_num)]
          norm_cast
        have hlt : windowBitSum response k % 4 < 10 := by omega
        rw [ht, fmt_02d_small _ hlt, hp]
        simp only [ne_eq, not_true_eq_false, if_false]
        rw [hnext]
        exact ih (k + 1)
      · rw [if_neg hw, hnext]
        exact ih (k + 1)
    · rw [if_neg hi]

/-- Claim C14. `error_correction` is a no-op, hence idempotent, on parity-consistent
input: for a binary response and an error code in which every chunk `k`
(the characters `2k` and `2k+1` of the error code) whose window `[4k, 4k+3]`
lies inside the response is the two-decimal-digit rendering of the window's
bit-sum modulo 4, `error_correction` returns the response unchanged, and a
second application changes nothing either. -/
theorem C14_error_correction_noop (response error_code : List Nat)
    (hbin : ∀ c ∈ response, c = 48 ∨ c = 49)
    (hpar : ∀ k, 2 * k < error_code.length → 4 * k + 3 < response.length →
      (error_code.drop (2 * k)).take 2 = twoDigits (windowBitSum response k % 4)) :
    error_correction response error_code = response
      ∧ error_correction (error_correction response error_code) error_code
          = error_correction response error_code := by
  have h : error_correction response error_code = response := by
    unfold error_correction
    exact error_correction_loop_noop response error_code hbin hpar error_code.length 0
  rw [h]
  exact ⟨rfl, h⟩

/-- Claim C14, witness: the response `"10101010"` with the error code `"0202"`. -/
theorem C14_error_correction_noop_witness :
    error_correction [49, 48, 49, 48, 49, 48, 49, 48] [48, 50, 48, 50]
        = [49, 48, 49, 48, 49, 48, 49, 48]
      ∧ error_correction (error_correction [49, 48, 49, 48, 49, 48, 49, 48] [48, 50, 48, 50])
          [48, 50, 48, 50]
        = error_correction [49, 48, 49, 48, 49, 48, 49, 48] [48, 50, 48, 50] :=
  C14_error_correction_noop [49, 48, 49, 48, 49, 48, 49, 48] [48, 50, 48, 50] (by decide)
    (by
      intro k h1 h2
      have hk : k = 0 ∨ k = 1 := by simp at h1; omega
      rcases hk with rfl | rfl <;> decide)

/-- A trailing single character of an error code of odd length never equals
a two-digit rendering, so its window is flipped. -/
theorem error_correction_trailing_char :
    error_correction [48, 48, 48, 48] [48] = [49, 48, 48, 48] := by
  decide

theorem sha256_round_length (s : List Nat) (kw : Nat × Nat) :
    (sha256_round s kw).length = s.length := by
  unfold sha256_round
  split <;> simp

theorem sha256_rounds_length (l : List (Nat × Nat)) : ∀ s : List Nat,
    (l.foldl sha256_round s).length = s.length := by
  induction l with
  | nil => intro s; rfl
  | cons kw t ih =>
    intro s
    rw [List.foldl_cons, ih, sha256_round_length]

theorem sha256_compress_length (hs block : List Nat) :
    (sha256_compress hs block).length = hs.length := by
  unfold sha256_compress
  simp [List.length_zipWith, sha256_rounds_length]

theorem sha256_blocks_length (n : Nat) : ∀ (hs data : List Nat),
    (sha256_blocks n hs data).length = hs.length := by
  induction n with
  | zero => intro hs data; rfl
  | succ n ih =>
    intro hs data
    rw [sha256_blocks, ih, sha256_compress_length]

/-- A SHA-256 digest has 32 bytes. -/
theorem sha256_length (msg : List Nat) : (sha256 msg).length = 32 := by
  unfold sha256
  simp [List.length_flatten, Function.comp_def, sha256_blocks_length, sha256_H0]

/-- The bytes of a SHA-256 digest are below 256. -/
theorem sha256_bytes (msg : List Nat) : ∀ x ∈ sha256 msg, x < 256 := by
  intro x hx
  unfold sha256 at hx
  simp only [List.mem_flatten, List.mem_map] at hx
  obtain ⟨l, ⟨w, _, rfl⟩, hxl⟩ := hx
  simp only [List.mem_cons, List.mem_singleton, List.not_mem_nil, or_false] at hxl
  rcases hxl with rfl | rfl | rfl | rfl <;> exact Nat.mod_lt _ (by decide)

/-- `hash_value` hashes the concatenation of its arguments. -/
theorem hash_value_pair (SHA256 : List Nat → List Nat) (a b : List Nat) :
    hash_value SHA256 [a, b] = hash_value SHA256 [a ++ b] := by
  simp [hash_value]

theorem hexChar_inj (a b : Nat) (ha : a < 16) (hb : b < 16) (h : hexChar a = hexChar b) :
    a = b := by
  unfold hexChar at h
  split_ifs at h <;> omega

theorem fmt_02x_inj (a b : Nat) (ha : a < 256) (hb : b < 256) (h : fmt_02x a = fmt_02x b) :
    a = b := by
  unfold fmt_02x at h
  simp only [List.cons.injEq, and_true] at h
  have h1 := hexChar_inj _ _ (by omega) (by omega) h.1
  have h2 := hexChar_inj _ _ (by omega) (by omega) h.2
  omega

theorem flatten_pairs_inj : ∀ (l1 l2 : List (List Nat)), (∀ x ∈ l1, x.length = 2) →
    (∀ x ∈ l2, x.length = 2) → l1.length = l2.length → l1.flatten = l2.flatten → l1 = l2 := by
  intro l1
  induction l1 with
  | nil =>
    intro l2 _ _ hl _
    cases l2 with
    | nil => rfl
    | cons y t => simp at hl
  | cons x t ih =>
    intro l2 h1 h2 hl hf
    cases l2 with
    | nil => simp at hl
    | cons y t2 =>
      simp only [List.flatten_cons] at hf
      have hx := h1 x (List.mem_cons_self _ _)
      have hy := h2 y (List.mem_cons_self _ _)
      obtain ⟨e1, e2⟩ := List.append_inj hf (by rw [hx, hy])
      rw [e1, ih t2 (fun z hz => h1 z (List.mem_cons_of_mem _ hz))
        (fun z hz => h2 z (List.mem_cons_of_mem _ hz)) (by simpa using hl) e2]

/-- The hexadecimal form determines a digest of 32 bytes: `hash_value` gives
equal strings only for equal digests. -/
theorem hash_value_inj (SHA256 : List Nat → List Nat)
    (hlen : ∀ m, (SHA256 m).length = 32) (hbyte : ∀ m, ∀ x ∈ SHA256 m, x < 256)
    (c1 c2 : List Nat) (h : hash_value SHA256 [c1] = hash_value SHA256 [c2]) :
    SHA256 c1 = SHA256 c2 := by
  unfold hash_value at h
  simp only [List.foldl_cons, List.foldl_nil, List.nil_append] at h
  have hm := flatten_pairs_inj _ _ (by simp [fmt_02x]) (by simp [fmt_02x]) (by simp) h
  rw [List.map_inj_left] at hm
  apply List.ext_getElem (by rw [hlen, hlen])
  intro n h1 h2
  have hn : n < 32 := by rw [hlen] at h1; exact h1
  have hq := hm n (List.mem_range.mpr hn)
  rw [List.getD_eq_getElem _ 0 h1, List.getD_eq_getElem _ 0 h2] at hq
  exact fmt_02x_inj _ _ (hbyte c1 _ (List.getElem_mem h1)) (hbyte c2 _ (List.getElem_mem h2)) hq

/-- Claim C11, counterexample: the strings `"x"` and `"xx"` differ, and for every hash
function `hash_value(2, "x", "xx")` equals `hash_value(2, "xx", "x")`, since
both hash the concatenation `"xxx"`. -/
theorem C11_order_counterexample :
    ([120] : List Nat) ≠ [120, 120]
      ∧ hash_value sha256 [[120], [120, 120]] = hash_value sha256 [[120, 120], [120]]
      ∧ ∀ SHA256 : List Nat → List Nat,
          hash_value SHA256 [[120], [120, 120]] = hash_value SHA256 [[120, 120], [120]] := by
  refine ⟨by decide, ?_, ?_⟩
  · rw [hash_value_pair, hash_value_pair]; rfl
  · intro SHA256
    rw [hash_value_pair, hash_value_pair]; rfl

/-- Claim C11, as amended. `hash_value` returns the hexadecimal SHA-256 digest of its
arguments concatenated in order with no delimiter, so for strings `a` and
`b` the values `hash_value(2, a, b)` and `hash_value(2, b, a)` differ exactly
when the digests of `a ++ b` and `b ++ a` differ; they are equal whenever
`a ++ b = b ++ a`, also for `a ≠ b`. -/
theorem C11_hash_value_order (SHA256 : List Nat → List Nat)
    (hlen : ∀ m, (SHA256 m).length = 32) (hbyte : ∀ m, ∀ x ∈ SHA256 m, x < 256)
    (a b : List Nat) :
    hash_value SHA256 [a, b] = ((List.range 32).map
        (fun i => fmt_02x ((SHA256 (a ++ b)).getD i 0))).flatten
      ∧ (hash_value SHA256 [a, b] ≠ hash_value SHA256 [b, a]
          ↔ SHA256 (a ++ b) ≠ SHA256 (b ++ a))
      ∧ (a ++ b = b ++ a → hash_value SHA256 [a, b] = hash_value SHA256 [b, a]) := by
  refine ⟨by simp [hash_value], ?_, ?_⟩
  · rw [hash_value_pair, hash_value_pair]
    constructor
    · intro h heq
      apply h
      unfold hash_value
      simp only [List.foldl_cons, List.foldl_nil, List.nil_append]
      rw [heq]
    · intro h heq
      exact h (hash_value_inj SHA256 hlen hbyte _ _ heq)
  · intro h
    rw [hash_value_pair, hash_value_pair, h]

/-- Claim C11, witness: SHA-256 with `a = "x"` and `b = "xx"`. -/
theorem C11_hash_value_order_witness :
    hash_value sha256 [[120], [120, 120]] = ((List.range 32).map
        (fun i => fmt_02x ((sha256 ([120] ++ [120, 120])).getD i 0))).flatten
      ∧ (hash_value sha256 [[120], [120, 120]] ≠ hash_value sha256 [[120, 120], [120]]
          ↔ sha256 ([120] ++ [120, 120]) ≠ sha256 ([120, 120] ++ [120]))
      ∧ (([120] : List Nat) ++ [120, 120] = [120, 120] ++ [120] →
          hash_value sha256 [[120], [120, 120]] = hash_value sha256 [[120, 120], [120]]) :=
  C11_hash_value_order sha256 sha256_length sha256_bytes [120] [120, 120]

/-- A number below `10 ^ k` has at most `k` decimal digits. -/
theorem decDigits_length_le (fuel : Nat) : ∀ (n k : Nat), 1 ≤ k → n < 10 ^ k →
    (decDigits fuel n).length ≤ k := by
  induction fuel with
  | zero => intro n k _ _; simp [decDigits]
  | succ fuel ih =>
    intro n k hk hn
    rw [decDigits]
    by_cases h : n < 10
    · rw [if_pos h]; simpa using hk
    · rw [if_neg h]
      have hk2 : 2 ≤ k := by
        by_contra hc
        have : k = 1 := by omega
        subst this
        simp at hn
        omega
      obtain ⟨m, rfl⟩ : ∃ m, k = m + 1 := ⟨k - 1, by omega⟩
      have hdiv : n / 10 < 10 ^ m := by
        rw [Nat.div_lt_iff_lt_mul (by decide)]
        rw [pow_succ] at hn
        exact hn
      have := ih (n / 10) m (by omega) hdiv
      simp only [List.length_append, List.length_singleton]
      omega

/-- The decimal form of a value below `PRIME_USED` has at most 10 digits. -/
theorem fmt_lu_length (v : Nat) (hv : v < PRIME_USED) : (fmt_lu v).length ≤ 10 := by
  unfold fmt_lu
  have hp : PRIME_USED = 2147483647 := rfl
  have hb : ULONG_BITS = 64 := rfl
  rw [hb, Nat.mod_eq_of_lt (by rw [hp] at hv; omega)]
  exact decDigits_length_le 20 v 10 (by decide) (by rw [hp] at hv; omega)

theorem Z_ok_length (Z : List Nat) (h : Z_ok Z) : Z.length ≤ 10 := by
  rcases h with rfl | ⟨v, hv, rfl⟩
  · simp
  · exact fmt_lu_length v hv

/-- The string `ZXK` returns is the decimal form of a value below
`PRIME_USED`, also after it is copied into `Z[32]`. -/
theorem ZXK_Z_ok (SHA256 : List Nat → List Nat) (rnd : Nat) (M R : List Nat) :
    Z_ok ((ZXK SHA256 rnd M R).1.take 31) := by
  right
  unfold ZXK
  simp only
  generalize ((strtoul M 16 * (strtoul (hash_value SHA256 [R]) 16 % PRIME_USED))
    % 2 ^ ULONG_BITS % PRIME_USED * (rnd % 9000 + 1000)) % 2 ^ ULONG_BITS = w
  have hv : w % PRIME_USED < PRIME_USED := Nat.mod_lt _ (by decide)
  have hl := fmt_lu_length _ hv
  refine ⟨w % PRIME_USED, hv, ?_⟩
  rw [List.take_of_length_le (by omega : (fmt_lu (w % PRIME_USED)).length ≤ 15),
    List.take_of_length_le (by omega)]

/-- The four decimal digits of a number from 1000 to 9999. -/
theorem fmt_d_four (v : Nat) (h1 : 1000 ≤ v) (h2 : v ≤ 9999) :
    (fmt_d (v : Int)).take 15
      = [48 + v / 1000, 48 + v / 100 % 10, 48 + v / 10 % 10, 48 + v % 10] := by
  unfold fmt_d
  have hn : ¬ ((v : Int) < 0) := by omega
  rw [if_neg hn, Int.natAbs_ofNat]
  have a1 : ¬ v < 10 := by omega
  have a2 : ¬ v / 10 < 10 := by omega
  have a3 : ¬ v / 10 / 10 < 10 := by omega
  have a4 : v / 10 / 10 / 10 < 10 := by omega
  have e1 : v / 10 / 10 / 10 = v / 1000 := by omega
  have e2 : v / 10 / 10 % 10 = v / 100 % 10 := by omega
  have hd : decDigits 10 v
      = [48 + v / 10 / 10 / 10, 48 + v / 10 / 10 % 10, 48 + v / 10 % 10, 48 + v % 10] := by
    rw [decDigits, if_neg a1, decDigits, if_neg a2, decDigits, if_neg a3, decDigits, if_pos a4]
    rfl
  rw [hd, e1, e2]
  rfl

/-- The layout of `pack_auth_request` for fields of at most 255 bytes. -/
theorem pack_auth_request_small (HID_j : List Nat) (CHlen : Nat) (x_p : List Nat)
    (hh : HID_j.length ≤ 255) (hx : x_p.length ≤ 255) (hc : CHlen < 65536) :
    pack_auth_request HID_j CHlen x_p
      = ([HID_j.length] ++ HID_j ++ [CHlen / 256, CHlen % 256] ++ [x_p.length] ++ x_p,
         HID_j.length + x_p.length + 4) := by
  have e1 : HID_j.length % 256 = HID_j.length := Nat.mod_eq_of_lt (by omega)
  have e2 : x_p.length % 256 = x_p.length := Nat.mod_eq_of_lt (by omega)
  have e3 : CHlen % 65536 = CHlen := Nat.mod_eq_of_lt hc
  have e4 : (1 + HID_j.length + 2 + 1 + x_p.length) % 65536 = HID_j.length + x_p.length + 4 := by
    omega
  simp [pack_auth_request, htons, e1, e2, e3, e4]

/-- The layout of `pack_auth_msg_response` for fields of at most 255 bytes. -/
theorem pack_auth_msg_response_small (HID_j COM_prime Z : List Nat)
    (hh : HID_j.length ≤ 255) (hc : COM_prime.length ≤ 255) (hz : Z.length ≤ 255) :
    pack_auth_msg_response HID_j COM_prime Z
      = ([HID_j.length] ++ HID_j ++ [COM_prime.length] ++ COM_prime ++ [Z.length] ++ Z,
         HID_j.length + COM_prime.length + Z.length + 3) := by
  have e1 : HID_j.length % 256 = HID_j.length := Nat.mod_eq_of_lt (by omega)
  have e2 : COM_prime.length % 256 = COM_prime.length := Nat.mod_eq_of_lt (by omega)
  have e3 : Z.length % 256 = Z.length := Nat.mod_eq_of_lt (by omega)
  have e4 : (1 + HID_j.length + 1 + COM_prime.length + 1 + Z.length) % 65536
      = HID_j.length + COM_prime.length + Z.length + 3 := by omega
  simp [pack_auth_msg_response, e1, e2, e3, e4]

/-- The value of `Z` after lines 384-401 is empty or a decimal below
`PRIME_USED` when it was so before. -/
theorem session_after_ZXK_Z_ok (SHA256 : List Nat → List Nat) (env : StepEnv) (st1 : Session)
    (authMsg : AuthMsgServer) (h : Z_ok st1.Z) :
    Z_ok (session_after_ZXK SHA256 env st1 authMsg).Z := by
  unfold session_after_ZXK
  split_ifs
  · exact ZXK_Z_ok SHA256 env.rnd authMsg.M _
  · exact h

/-- The two events of a response are as stated when `HID_j` is a digest
string and `Z` is empty or a decimal below `PRIME_USED`. -/
theorem response_events_ok (SHA256 : List Nat → List Nat) (st1 : Session)
    (authMsg : AuthMsgServer) (Z : List Nat) (ret : Int)
    (hH : st1.HID_j.length = 64) (hHx : ∀ c ∈ st1.HID_j, isHexLower c = true) (hZ : Z_ok Z) :
    event_ok (Event.pack_response st1.HID_j (COM_prime_of SHA256 st1 authMsg) Z)
      ∧ event_ok (Event.sent AUTH_MSG
          (pack_auth_msg_response st1.HID_j (COM_prime_of SHA256 st1 authMsg) Z).1
          (pack_auth_msg_response st1.HID_j (COM_prime_of SHA256 st1 authMsg) Z).2 ret) := by
  have hC : (COM_prime_of SHA256 st1 authMsg).length = 64 := hash_value_length SHA256 _
  have hCx : ∀ c ∈ COM_prime_of SHA256 st1 authMsg, isHexLower c = true :=
    hash_value_isHexLower SHA256 _
  have hZl := Z_ok_length Z hZ
  have hp := pack_auth_msg_response_small st1.HID_j (COM_prime_of SHA256 st1 authMsg) Z
    (by omega) (by omega) (by omega)
  have hsum : st1.HID_j.length + (COM_prime_of SHA256 st1 authMsg).length + Z.length + 3
      = 131 + Z.length := by omega
  rw [hsum] at hp
  constructor
  · exact ⟨hH, hHx, hC, hCx, hZ, hZl, hp⟩
  · refine ⟨(pack_auth_msg_response_len _ _ _).symm, ?_, ?_⟩
    · intro h; exact absurd h (by decide)
    · intro _; rw [hp]; simp only; omega

/-- The loop body keeps `HID_j` a digest string and `Z` empty or a decimal
below `PRIME_USED`, and every event it adds is as stated. -/
theorem loop_body_events (SHA256 : List Nat → List Nat) (env : StepEnv) (st : Session)
    (hH : st.HID_j.length = 64) (hHx : ∀ c ∈ st.HID_j, isHexLower c = true)
    (hZ : Z_ok st.Z) (hT : ∀ e ∈ st.trace, event_ok e) :
    Z_ok (loop_body SHA256 env st).1.Z
      ∧ ∀ e ∈ (loop_body SHA256 env st).1.trace, event_ok e := by
  rcases loop_body_cases SHA256 env st with h | ⟨authMsg, h⟩
  · rw [h]; exact ⟨hZ, hT⟩
  · rw [h]
    cases hca : check_ack SHA256 { st with sock := (recv_message st.sock).2 } authMsg with
    | none =>
      rw [process_auth_msg_none SHA256 env _ authMsg hca]
      exact ⟨hZ, hT⟩
    | some st1 =>
      rw [process_auth_msg_some SHA256 env _ st1 authMsg hca]
      obtain ⟨-, c2, -, -, -, -, -, -, -, -, -, c12, -, c14⟩ :=
        check_ack_fields SHA256 _ st1 authMsg hca
      simp only at c2 c12 c14
      have hZ1 : Z_ok st1.Z := by
        rcases c14 with e | e
        · rw [e]; exact hZ
        · rw [e]; exact Or.inl rfl
      have hZ2 := session_after_ZXK_Z_ok SHA256 env st1 authMsg hZ1
      obtain ⟨-, -, -, -, -, -, -, -, -, -, f11, f12⟩ := respond_fields SHA256 env st1 authMsg
      rw [f11, f12]
      refine ⟨hZ2, ?_⟩
      intro e he
      rw [List.mem_append] at he
      rcases he with he | he
      · rw [c12] at he; exact hT e he
      · obtain ⟨o1, o2⟩ := response_events_ok SHA256 st1 authMsg
          (session_after_ZXK SHA256 env st1 authMsg).Z
          (if (respond SHA256 env st1 authMsg).2 = true then -1 else 0)
          (by rw [c2]; exact hH) (by rw [c2]; exact hHx) hZ2
        simp only [List.mem_cons, List.mem_singleton, List.not_mem_nil, or_false] at he
        rcases he with rfl | rfl
        · exact o1
        · exact o2

/-- Every event of the round loop is as stated, after any number of
iterations. -/
theorem round_loop_events (SHA256 : List Nat → List Nat) (env : Nat → StepEnv) (fuel : Nat) :
    ∀ (n : Nat) (st : Session), st.HID_j.length = 64 →
      (∀ c ∈ st.HID_j, isHexLower c = true) → Z_ok st.Z → (∀ e ∈ st.trace, event_ok e) →
      Z_ok (round_loop SHA256 env fuel n st).1.Z
        ∧ ∀ e ∈ (round_loop SHA256 env fuel n st).1.trace, event_ok e := by
  induction fuel with
  | zero => intro n st _ _ hZ hT; rw [round_loop_zero]; exact ⟨hZ, hT⟩
  | succ fuel ih =>
    intro n st hH hHx hZ hT
    rw [round_loop_succ]
    obtain ⟨b1, b2⟩ := loop_body_events SHA256 (env n) st hH hHx hZ hT
    obtain ⟨-, f2, -⟩ := loop_body_fields SHA256 (env n) st
    split_ifs
    · exact ⟨b1, b2⟩
    · exact ih (n + 1) _ (by rw [f2]; exact hH) (by rw [f2]; exact hHx) b1 b2
    · exact ⟨hZ, hT⟩

/-- The two events of the `AUTH_REQUEST` are as stated. -/
theorem request_events_ok (SHA256 : List Nat → List Nat) (rand0 : Nat) (ID_j : List Nat)
    (ret : Int) :
    event_ok (Event.pack_request (hash_value SHA256 [ID_j]) 5
        ((fmt_d (((rand0 % 9000 : Nat) : Int) + 1000)).take 15))
      ∧ event_ok (Event.sent AUTH_REQUEST
          (pack_auth_request (hash_value SHA256 [ID_j]) 5
            ((fmt_d (((rand0 % 9000 : Nat) : Int) + 1000)).take 15)).1
          (pack_auth_request (hash_value SHA256 [ID_j]) 5
            ((fmt_d (((rand0 % 9000 : Nat) : Int) + 1000)).take 15)).2 ret) := by
  have hv : (((rand0 % 9000 : Nat) : Int) + 1000) = ((rand0 % 9000 + 1000 : Nat) : Int) := by
    push_cast; rfl
  have hx := fmt_d_four (rand0 % 9000 + 1000) (by omega) (by omega)
  rw [hv, hx]
  have hH : (hash_value SHA256 [ID_j]).length = 64 := hash_value_length SHA256 _
  have hp := pack_auth_request_small (hash_value SHA256 [ID_j]) 5
    [48 + (rand0 % 9000 + 1000) / 1000, 48 + (rand0 % 9000 + 1000) / 100 % 10,
     48 + (rand0 % 9000 + 1000) / 10 % 10, 48 + (rand0 % 9000 + 1000) % 10]
    (by omega) (by simp) (by decide)
  have hsum : (hash_value SHA256 [ID_j]).length
      + ([48 + (rand0 % 9000 + 1000) / 1000, 48 + (rand0 % 9000 + 1000) / 100 % 10,
          48 + (rand0 % 9000 + 1000) / 10 % 10, 48 + (rand0 % 9000 + 1000) % 10] : List Nat).length
      + 4 = 72 := by
    rw [hH]; rfl
  rw [hsum] at hp
  constructor
  · exact ⟨hH, hash_value_isHexLower SHA256 _, ⟨rand0 % 9000 + 1000, by omega, by omega, rfl⟩, hp⟩
  · refine ⟨?_, ?_, ?_⟩
    · rw [hp]
      simp only [List.length_append, List.length_cons, List.length_nil, hH]
    · intro _; rw [hp]
    · intro h; exact absurd h (by decide)

/-- Claim C20. No length narrowing happens inside a session: for every board string
and every sequence of received frames, in every call of an encoder `HID_j`
and `COM_prime` are 64 hexadecimal characters, `x_p` is the four digits of a
number from 1000 to 9999 and `Z` is empty or the decimal form of a value
below `2^31 - 1`, at most 10 digits; so every length byte written is the
true length of its field, the `AUTH_REQUEST` payload has exactly 72 bytes
and every `AUTH_MSG` response payload has at most 141 bytes. -/
theorem C20_no_length_narrowing (SHA256 : List Nat → List Nat) (rand0 : Nat) (acc1 acc2 : Int)
    (env : Nat → StepEnv) (fuel : Nat) (board : List Nat) (sock : Sock) (st0 : Session)
    (h0 : start_prover_init SHA256 rand0 acc1 acc2 board sock = some st0) :
    trace_ok (round_loop SHA256 env fuel 0 st0).1.trace := by
  unfold trace_ok
  obtain ⟨-, i2, -, i4, -, -, -, i8, -, -, -, ret, i12⟩ :=
    start_prover_init_some SHA256 rand0 acc1 acc2 board sock st0 h0
  have hH : st0.HID_j.length = 64 := by rw [i2]; exact hash_value_length SHA256 _
  have hHx : ∀ c ∈ st0.HID_j, isHexLower c = true := by
    rw [i2]; exact hash_value_isHexLower SHA256 _
  have hT : ∀ e ∈ st0.trace, event_ok e := by
    obtain ⟨o1, o2⟩ := request_events_ok SHA256 rand0 st0.ID_j ret
    rw [← i2, ← i4] at o1 o2
    intro e he
    rw [i12] at he
    simp only [List.mem_cons, List.mem_singleton, List.not_mem_nil, or_false] at he
    rcases he with rfl | rfl
    · exact o1
    · exact o2
  exact (round_loop_events SHA256 env fuel 0 st0 hH hHx (by rw [i8]; exact Or.inl rfl) hT).2

/-- Claim C20, witness: board `"1"` on a socket that delivers nothing. -/
theorem C20_no_length_narrowing_witness :
    trace_ok (round_loop sha256 env_full 3 0 (session_start [])).1.trace :=
  C20_no_length_narrowing sha256 0 4 72 env_full 3 [49] [] (session_start [])
    start_prover_init_board_1

set_option maxRecDepth 1000000 in
/-- The digest `crp_digest` is the SHA-256 digest of the string `getCRP`
returns. -/
theorem sha256_getCRP : sha256 getCRP = crp_digest := by
  decide

end Prover
